import Mathlib

/-!
# The expression tree of package `grammar` and its structural dump

A shallow embedding of `grammar/ast.go`.

Modelling conventions.

* A Go `string` that the program only copies (the indent, selector segments,
  binding names, the text of the sink) is a `String`: a sequence of Unicode code
  points, that is a Go string holding valid UTF-8. The Raw text of a match
  value, which the verb `%q` reads byte by byte, is the list of its bytes and
  need not be valid UTF-8.
* Go's `int` is 64 bits wide. Operator values, bind modes and the nesting level
  are integers (`Int`), `uint32` (the selector type) is `Nat`. The only
  arithmetic of the source is `level+1` and `level+2`, which the model performs
  as Go does, keeping the low 64 bits (`wrapInt`): at the largest `int` the sum
  is negative. A level outside the range of `int` does not occur in a run;
  `Repeat` has no result for it.
* Memory is not bounded: a string may have any length up to the largest `int`,
  the bound `strings.Repeat` itself checks.
* The `io.Writer` is an append-only text sink; a run of the dump is either
  `done` or `fault` (a Go panic), and both carry what the sink holds at that
  moment.
* A nil `Expression` is the constructor `Expression.nil`; a nil `*MatchValue`
  is `none`. An interface value holding a nil node pointer panics like the nil
  interface, before the node writes anything, and is not told apart from it.
* The functions of the Go standard library the source calls (`strings.Repeat`,
  `strings.Join`, the verbs `%s`, `%v` and `%q` of `fmt`) are modelled from
  their library source; the table of printable code points above U+00FF that
  `%q` consults is a parameter `tbl`.
-/

namespace Grammar

/-- A Go string. -/
abbrev GoString := String

/-! ## Standard library -/

/-- The text made of `n` copies of `s`. -/
def copies (s : GoString) : Nat → GoString
  | 0 => ""
  | n + 1 => copies s n ++ s

/-- The largest value of the Go type `int`. -/
def maxInt : Int := 9223372036854775807

/-- The value of the Go type `int` that an integer arithmetic result `x` has: its low
64 bits in two's complement. -/
def wrapInt (x : Int) : Int :=
  (x + 9223372036854775808) % 18446744073709551616 - 9223372036854775808

/-- Go `strings.Repeat`: `count` copies of `s`. It panics (`none`) when `count` is negative
and when the length of the result, `len(s) * count`, overflows `int`; a `count` above the
largest `int` does not occur and has no result either. -/
def Repeat (s : GoString) (count : Int) : Option GoString :=
  if count < 0 then none
  else if maxInt < count ∨ maxInt < (s.utf8ByteSize : Int) * count then none
  else if s = "" then some ""
  else some (copies s count.toNat)

/-- Go `strings.Join`: the first element, then every further element preceded by `sep`. -/
def Join (elems : List GoString) (sep : GoString) : GoString :=
  match elems with
  | [] => ""
  | e :: rest => rest.foldl (fun b s => b ++ sep ++ s) e

/-- The digit table `lowerhex` of `strconv`. -/
def lowerhex (d : Nat) : Char :=
  "0123456789abcdef".toList.getD (d % 16) '0'

/-- Go `strconv.IsPrint`: the Latin-1 range is decided inline, the rest by the table. -/
def IsPrint (tbl : Char → Bool) (r : Char) : Bool :=
  if r.toNat ≤ 0xFF then
    if 0x20 ≤ r.toNat ∧ r.toNat ≤ 0x7E then true
    else if 0xA1 ≤ r.toNat ∧ r.toNat ≤ 0xFF then decide (r.toNat ≠ 0xAD)
    else false
  else tbl r

/-- The double quote character. -/
def dquote : Char := Char.ofNat 0x22

/-- The backslash character. -/
def backslash : Char := Char.ofNat 0x5C

/-- Go `strconv.appendEscapedRune` for the double quote, neither ASCII-only nor
graphic-only: the text one code point contributes to a quoted string. -/
def appendEscapedRune (tbl : Char → Bool) (buf : GoString) (r : Char) : GoString :=
  if r = dquote ∨ r = backslash then (buf.push backslash).push r
  else if IsPrint tbl r then buf.push r
  else if r.toNat = 0x07 then (buf.push backslash).push 'a'
  else if r.toNat = 0x08 then (buf.push backslash).push 'b'
  else if r.toNat = 0x0C then (buf.push backslash).push 'f'
  else if r.toNat = 0x0A then (buf.push backslash).push 'n'
  else if r.toNat = 0x0D then (buf.push backslash).push 'r'
  else if r.toNat = 0x09 then (buf.push backslash).push 't'
  else if r.toNat = 0x0B then (buf.push backslash).push 'v'
  else if r.toNat < 0x20 ∨ r.toNat = 0x7F then
    (((buf.push backslash).push 'x').push (lowerhex (r.toNat / 16))).push (lowerhex r.toNat)
  else if r.toNat < 0x10000 then
    [12, 8, 4, 0].foldl (fun b s => b.push (lowerhex (r.toNat / 2 ^ s)))
      ((buf.push backslash).push 'u')
  else
    [28, 24, 20, 16, 12, 8, 4, 0].foldl (fun b s => b.push (lowerhex (r.toNat / 2 ^ s)))
      ((buf.push backslash).push 'U')

/-- A byte. -/
abbrev Byte := Fin 256

/-- A Go string as the list of its bytes. -/
abbrev GoBytes := List Byte

/-- Go `utf8.RuneError`. -/
def RuneError : Nat := 0xFFFD

/-- Go `utf8.AppendRune`: the UTF-8 encoding of a code point. -/
def encodeRune (c : Char) : GoBytes :=
  if c.toNat < 0x80 then [Fin.ofNat c.toNat]
  else if c.toNat < 0x800 then
    [Fin.ofNat (0xC0 + c.toNat / 64), Fin.ofNat (0x80 + c.toNat % 64)]
  else if c.toNat < 0x10000 then
    [Fin.ofNat (0xE0 + c.toNat / 4096), Fin.ofNat (0x80 + c.toNat / 64 % 64),
      Fin.ofNat (0x80 + c.toNat % 64)]
  else
    [Fin.ofNat (0xF0 + c.toNat / 262144), Fin.ofNat (0x80 + c.toNat / 4096 % 64),
      Fin.ofNat (0x80 + c.toNat / 64 % 64), Fin.ofNat (0x80 + c.toNat % 64)]

/-- The bytes of a text. -/
def bytesOf (s : GoString) : GoBytes :=
  s.data.flatMap encodeRune

/-- The text of a list of ASCII bytes. -/
def asciiText (s : GoBytes) : GoString :=
  String.mk (s.map fun b => Char.ofNat b.val)

/-- Go `utf8.DecodeRuneInString`: the first code point of `s` and its width in bytes, and
`RuneError` with width 1 when `s` does not begin with a valid encoding (width 0 when `s`
is empty). The size and the range of the second byte follow the table `first` and
`acceptRanges` of the package. -/
def DecodeRuneInString (s : GoBytes) : Nat × Nat :=
  match s with
  | [] => (RuneError, 0)
  | b0 :: rest =>
    if b0.val < 0x80 then (b0.val, 1)
    else if b0.val < 0xC2 ∨ 0xF4 < b0.val then (RuneError, 1)
    else
      let sz := if b0.val < 0xE0 then 2 else if b0.val < 0xF0 then 3 else 4
      let lo := if b0.val = 0xE0 then 0xA0 else if b0.val = 0xF0 then 0x90 else 0x80
      let hi := if b0.val = 0xED then 0x9F else if b0.val = 0xF4 then 0x8F else 0xBF
      if rest.length + 1 < sz then (RuneError, 1)
      else
        match rest with
        | [] => (RuneError, 1)
        | b1 :: rest1 =>
          if b1.val < lo ∨ hi < b1.val then (RuneError, 1)
          else if sz ≤ 2 then (b0.val % 32 * 64 + b1.val % 64, 2)
          else
            match rest1 with
            | [] => (RuneError, 1)
            | b2 :: rest2 =>
              if b2.val < 0x80 ∨ 0xBF < b2.val then (RuneError, 1)
              else if sz ≤ 3 then
                (b0.val % 16 * 4096 + b1.val % 64 * 64 + b2.val % 64, 3)
              else
                match rest2 with
                | [] => (RuneError, 1)
                | b3 :: _ =>
                  if b3.val < 0x80 ∨ 0xBF < b3.val then (RuneError, 1)
                  else
                    (b0.val % 8 * 262144 + b1.val % 64 * 4096 + b2.val % 64 * 64 +
                      b3.val % 64, 4)

/-- The loop of Go `strconv.appendQuotedWith`: `skip` is the number of bytes of the
current code point that are still to be passed over. A byte that begins no valid encoding
is written as a backslash, `x` and its two hexadecimal digits. -/
def quoteLoop (tbl : Char → Bool) : Nat → GoBytes → GoString → GoString
  | _, [], buf => buf
  | skip + 1, _ :: rest, buf => quoteLoop tbl skip rest buf
  | 0, b :: rest, buf =>
    let rw := if b.val < 0x80 then (b.val, 1) else DecodeRuneInString (b :: rest)
    if rw.2 = 1 ∧ rw.1 = RuneError then
      quoteLoop tbl 0 rest
        ((((buf.push backslash).push 'x').push (lowerhex (b.val / 16))).push (lowerhex b.val))
    else
      quoteLoop tbl (rw.2 - 1) rest (appendEscapedRune tbl buf (Char.ofNat rw.1))

/-- Go `strconv.Quote`, which is what the verb `%q` prints for a string. -/
def Quote (tbl : Char → Bool) (s : GoBytes) : GoString :=
  (quoteLoop tbl 0 s (String.singleton dquote)).push dquote

/-! ## Operators -/

/-- Go `type UnaryOperator int`. -/
abbrev UnaryOperator := Int

/-- The constant `UnaryOpNot`. -/
def UnaryOpNot : UnaryOperator := 0

/-- Go `func (op UnaryOperator) String() string`. -/
def UnaryOperator.String (op : UnaryOperator) : GoString :=
  if op = UnaryOpNot then "Not"
  else "UNKNOWN"

/-- Go `type BinaryOperator int`. -/
abbrev BinaryOperator := Int

/-- The constant `BinaryOpAnd`. -/
def BinaryOpAnd : BinaryOperator := 0
/-- The constant `BinaryOpOr`. -/
def BinaryOpOr : BinaryOperator := 1

/-- Go `func (op BinaryOperator) String() string`. -/
def BinaryOperator.String (op : BinaryOperator) : GoString :=
  if op = BinaryOpAnd then "And"
  else if op = BinaryOpOr then "Or"
  else "UNKNOWN"

/-- Go `type MatchOperator int`. -/
abbrev MatchOperator := Int

/-- The constant `MatchEqual`. -/
def MatchEqual : MatchOperator := 0
/-- The constant `MatchNotEqual`. -/
def MatchNotEqual : MatchOperator := 1
/-- The constant `MatchIn`. -/
def MatchIn : MatchOperator := 2
/-- The constant `MatchNotIn`. -/
def MatchNotIn : MatchOperator := 3
/-- The constant `MatchIsEmpty`. -/
def MatchIsEmpty : MatchOperator := 4
/-- The constant `MatchIsNotEmpty`. -/
def MatchIsNotEmpty : MatchOperator := 5
/-- The constant `MatchMatches`. -/
def MatchMatches : MatchOperator := 6
/-- The constant `MatchNotMatches`. -/
def MatchNotMatches : MatchOperator := 7
/-- The constant `MatchGreaterOrEqualThan`. -/
def MatchGreaterOrEqualThan : MatchOperator := 8
/-- The constant `MatchGreaterThan`. -/
def MatchGreaterThan : MatchOperator := 9
/-- The constant `MatchLesserOrEqualThan`. -/
def MatchLesserOrEqualThan : MatchOperator := 10
/-- The constant `MatchLesserThan`. -/
def MatchLesserThan : MatchOperator := 11

/-- Go `func (op MatchOperator) String() string`, the cases in the order of the source. -/
def MatchOperator.String (op : MatchOperator) : GoString :=
  if op = MatchEqual then "Equal"
  else if op = MatchNotEqual then "Not Equal"
  else if op = MatchIn then "In"
  else if op = MatchNotIn then "Not In"
  else if op = MatchIsEmpty then "Is Empty"
  else if op = MatchIsNotEmpty then "Is Not Empty"
  else if op = MatchMatches then "Matches"
  else if op = MatchNotMatches then "Not Matches"
  else if op = MatchGreaterThan then "Greater Than"
  else if op = MatchGreaterOrEqualThan then "Greater or Equal Than"
  else if op = MatchLesserThan then "Lesser Than"
  else if op = MatchLesserOrEqualThan then "Lesser Than"
  else "UNKNOWN"

/-- Go `type CollectionBindMode int`. -/
abbrev CollectionBindMode := Int

/-- The constant `CollectionBindDefault`. -/
def CollectionBindDefault : CollectionBindMode := 0
/-- The constant `CollectionBindIndex`. -/
def CollectionBindIndex : CollectionBindMode := 1
/-- The constant `CollectionBindValue`. -/
def CollectionBindValue : CollectionBindMode := 2
/-- The constant `CollectionBindIndexAndValue`. -/
def CollectionBindIndexAndValue : CollectionBindMode := 3

/-- Go `type CollectionOperator int`. -/
abbrev CollectionOperator := Int

/-- The constant `CollectionOpAny`. -/
def CollectionOpAny : CollectionOperator := 0
/-- The constant `CollectionOpAll`. -/
def CollectionOpAll : CollectionOperator := 1

/-- Go `func (op CollectionOperator) String() string`. -/
def CollectionOperator.String (op : CollectionOperator) : GoString :=
  if op = CollectionOpAny then "any"
  else if op = CollectionOpAll then "all"
  else "UNKNOWN"

/-! ## Selectors, match values and name bindings -/

/-- Go `type SelectorType uint32`. -/
abbrev SelectorType := Nat

/-- The constant `SelectorTypeUnknown`. -/
def SelectorTypeUnknown : SelectorType := 0
/-- The constant `SelectorTypeBexpr`. -/
def SelectorTypeBexpr : SelectorType := 1
/-- The constant `SelectorTypeJsonPointer`. -/
def SelectorTypeJsonPointer : SelectorType := 2

/-- Go `type Selector struct`. -/
structure Selector where
  «Type» : SelectorType
  Path : List GoString
  deriving DecidableEq

/-- Go `func (sel Selector) String() string`. -/
def Selector.String (sel : Selector) : GoString :=
  if sel.Path.length = 0 then ""
  else if sel.«Type» = SelectorTypeBexpr then Join sel.Path "."
  else if sel.«Type» = SelectorTypeJsonPointer then Join sel.Path "/"
  else ""

/-- Go `type MatchValue struct`; `Converted` is an `interface{}`, of any type `α`. -/
structure MatchValue (α : Type) where
  Raw : GoBytes
  Converted : α

/-- Go `type CollectionNameBinding struct`. -/
structure CollectionNameBinding where
  Mode : CollectionBindMode
  Default : GoString
  Index : GoString
  Value : GoString
  deriving DecidableEq

/-- Go `func (b *CollectionNameBinding) String() string`; each `Sprintf` has only `%s` verbs. -/
def CollectionNameBinding.String (b : CollectionNameBinding) : GoString :=
  if b.Mode = CollectionBindDefault then "Default ( " ++ b.Default ++ " )"
  else if b.Mode = CollectionBindIndex then "Index ( " ++ b.Index ++ " )"
  else if b.Mode = CollectionBindValue then "Value ( " ++ b.Value ++ " )"
  else if b.Mode = CollectionBindIndexAndValue then
    "Index & Value ( " ++ b.Index ++ ", " ++ b.Value ++ " )"
  else "UNKNOWN"

/-! ## Expressions -/

/-- Go `type Expression interface`, with its four implementations
`*UnaryExpression`, `*BinaryExpression`, `*MatchExpression` and
`*CollectionExpression`; `nil` is the nil interface value
(the field `Expression` of a collection node is `Inner`). -/
inductive Expression (α : Type) where
  | nil : Expression α
  | UnaryExpression (Operator : UnaryOperator) (Operand : Expression α) : Expression α
  | BinaryExpression (Left : Expression α) (Operator : BinaryOperator)
      (Right : Expression α) : Expression α
  | MatchExpression (Selector : Selector) (Operator : MatchOperator)
      (Value : Option (MatchValue α)) : Expression α
  | CollectionExpression (Operator : CollectionOperator) (Selector : Selector)
      (NameBinding : CollectionNameBinding) (Inner : Expression α) : Expression α

/-- How a call of the dump ends, with the content of the sink at that moment. -/
inductive Outcome where
  | done (sink : GoString)
  | fault (sink : GoString)
  deriving DecidableEq

/-- The content of the sink when the call ended. -/
def Outcome.sink : Outcome → GoString
  | .done s => s
  | .fault s => s

/-- Whether the call panicked. -/
def Outcome.faulted : Outcome → Bool
  | .done _ => false
  | .fault _ => true

/-- The operators of the first case of the switch in `(*MatchExpression).ExpressionDump`. -/
def printsValue (op : MatchOperator) : Bool :=
  op = MatchEqual ∨ op = MatchNotEqual ∨ op = MatchIn ∨ op = MatchNotIn ∨
  op = MatchLesserOrEqualThan ∨ op = MatchGreaterThan ∨ op = MatchGreaterOrEqualThan ∨
  op = MatchLesserThan

/-- Go `ExpressionDump(w io.Writer, indent string, level int)` of the four node
types, `w` being the content of the sink before the call. Calling it on nil panics. The
sums `level+1` and `level+2` are sums of the type `int`. -/
def Expression.ExpressionDump {α : Type} (tbl : Char → Bool) :
    Expression α → GoString → GoString → Int → Outcome
  | .nil, w, _, _ => .fault w
  | .UnaryExpression op operand, w, indent, level =>
    match Repeat indent level with
    | none => .fault w
    | some localIndent =>
      -- "%s%s {\n"
      let w1 := w ++ (localIndent ++ UnaryOperator.String op ++ " \x7b\n")
      match operand.ExpressionDump tbl w1 indent (wrapInt (level + 1)) with
      | .fault w2 => .fault w2
      | .done w2 =>
        -- "%s}\n"
        .done (w2 ++ (localIndent ++ "\x7d\n"))
  | .BinaryExpression left op right, w, indent, level =>
    match Repeat indent level with
    | none => .fault w
    | some localIndent =>
      -- "%s%s {\n"
      let w1 := w ++ (localIndent ++ BinaryOperator.String op ++ " \x7b\n")
      match left.ExpressionDump tbl w1 indent (wrapInt (level + 1)) with
      | .fault w2 => .fault w2
      | .done w2 =>
        match right.ExpressionDump tbl w2 indent (wrapInt (level + 1)) with
        | .fault w3 => .fault w3
        | .done w3 =>
          -- "%s}\n"
          .done (w3 ++ (localIndent ++ "\x7d\n"))
  | .MatchExpression sel op value, w, indent, level =>
    if printsValue op then
      match Repeat indent level, Repeat indent (wrapInt (level + 1)), value with
      | some i1, some i2, some v =>
        -- "%[1]s%[3]s {\n%[2]sSelector: %[4]v\n%[2]sValue: %[5]q\n%[1]s}\n"
        .done (w ++ (i1 ++ MatchOperator.String op ++ " \x7b\n" ++
          i2 ++ "Selector: " ++ sel.String ++ "\n" ++
          i2 ++ "Value: " ++ Quote tbl v.Raw ++ "\n" ++
          i1 ++ "\x7d\n"))
      | _, _, _ => .fault w
    else
      match Repeat indent level, Repeat indent (wrapInt (level + 1)) with
      | some i1, some i2 =>
        -- "%[1]s%[3]s {\n%[2]sSelector: %[4]v\n%[1]s}\n"
        .done (w ++ (i1 ++ MatchOperator.String op ++ " \x7b\n" ++
          i2 ++ "Selector: " ++ sel.String ++ "\n" ++
          i1 ++ "\x7d\n"))
      | _, _ => .fault w
  | .CollectionExpression op sel binding inner, w, indent, level =>
    match Repeat indent level with
    | none => .fault w
    | some localIndent =>
      -- "%[2]s%[3]s {\n%[1]s%[2]sSelector: %[4]v\n%[1]s%[2]sNameBinding: %[5]s\n"
      let w1 := w ++ (localIndent ++ CollectionOperator.String op ++ " \x7b\n" ++
        indent ++ localIndent ++ "Selector: " ++ sel.String ++ "\n" ++
        indent ++ localIndent ++ "NameBinding: " ++ binding.String ++ "\n")
      match inner.ExpressionDump tbl w1 indent (wrapInt (level + 2)) with
      | .fault w2 => .fault w2
      | .done w2 =>
        -- "%s}\n"
        .done (w2 ++ (localIndent ++ "\x7d\n"))

/-- The text a completed dump writes to an empty sink; `none` when the dump panics. -/
def dump {α : Type} (tbl : Char → Bool) (e : Expression α) (indent : GoString) (level : Int) :
    Option GoString :=
  match e.ExpressionDump tbl "" indent level with
  | .done s => some s
  | .fault _ => none

/-- The outcome of a call that started with `w` already in the sink. -/
def Outcome.onto (w : GoString) : Outcome → Outcome
  | .done s => .done (w ++ s)
  | .fault s => .fault (w ++ s)

/-- The segments in their order, with `sep` between consecutive segments and nowhere else. -/
def separated (sep : GoString) : List GoString → GoString
  | [] => ""
  | [a] => a
  | a :: b :: rest => a ++ sep ++ separated sep (b :: rest)

/-! ## The collection node and its selector accessors -/

/-- Go `type CollectionExpression struct`, the receiver of the selector accessors. -/
structure CollectionExpression (α : Type) where
  Operator : CollectionOperator
  Selector : Selector
  NameBinding : CollectionNameBinding
  Expression : Expression α

/-- The node as a value of the interface `Expression`. -/
def CollectionExpression.toExpression {α : Type} (expr : CollectionExpression α) :
    Grammar.Expression α :=
  Grammar.Expression.CollectionExpression expr.Operator expr.Selector expr.NameBinding
    expr.Expression

/-- Go `func (expr *CollectionExpression) GetSelector() Selector`: the value returned and
the node after the call. -/
def GetSelector {α : Type} (expr : CollectionExpression α) :
    Selector × CollectionExpression α :=
  (expr.Selector, expr)

/-- Go `func (expr *CollectionExpression) SetSelector(sel Selector)`: the node after the
call. -/
def SetSelector {α : Type} (expr : CollectionExpression α) (sel : Selector) :
    CollectionExpression α :=
  { expr with Selector := sel }

/-! ## Predicates on trees -/

/-- The eight operators named as value-printing. -/
def valueOperators : List MatchOperator :=
  [MatchEqual, MatchNotEqual, MatchIn, MatchNotIn, MatchGreaterOrEqualThan,
    MatchGreaterThan, MatchLesserOrEqualThan, MatchLesserThan]

/-- Whether the interface value is nil. -/
def Expression.isNil {α : Type} : Expression α → Bool
  | .nil => true
  | _ => false

/-- A well-formed tree: the root is not nil, no node has a nil child, and every match
node with a value-printing operator has a non-nil Value. -/
def wellFormed {α : Type} : Expression α → Bool
  | .nil => false
  | .UnaryExpression _ operand => wellFormed operand
  | .BinaryExpression left _ right => wellFormed left && wellFormed right
  | .MatchExpression _ op value => !(decide (op ∈ valueOperators)) || value.isSome
  | .CollectionExpression _ _ _ inner => wellFormed inner

/-- A malformed tree: some node is a unary node with a nil Operand, a binary node with a
nil Left or a nil Right, a collection node with a nil Expression, or a match node with a
nil Value and a value-printing operator. -/
def malformed {α : Type} : Expression α → Bool
  | .nil => false
  | .UnaryExpression _ operand => operand.isNil || malformed operand
  | .BinaryExpression left _ right =>
    left.isNil || right.isNil || malformed left || malformed right
  | .MatchExpression _ op value => decide (op ∈ valueOperators) && value.isNone
  | .CollectionExpression _ _ _ inner => inner.isNil || malformed inner

/-- The operator label of the root node. -/
def label {α : Type} : Expression α → GoString
  | .nil => ""
  | .UnaryExpression op _ => UnaryOperator.String op
  | .BinaryExpression _ op _ => BinaryOperator.String op
  | .MatchExpression _ op _ => MatchOperator.String op
  | .CollectionExpression op _ _ _ => CollectionOperator.String op

/-- The tree with every Converted field replaced by the unit value. -/
def forgetConverted {α : Type} : Expression α → Expression Unit
  | .nil => .nil
  | .UnaryExpression op operand => .UnaryExpression op (forgetConverted operand)
  | .BinaryExpression left op right =>
    .BinaryExpression (forgetConverted left) op (forgetConverted right)
  | .MatchExpression sel op value =>
    .MatchExpression sel op (value.map fun v => ⟨v.Raw, ()⟩)
  | .CollectionExpression op sel binding inner =>
    .CollectionExpression op sel binding (forgetConverted inner)

/-! ## Lines -/

/-- The newline character. -/
def newline : Char := Char.ofNat 0x0A

/-- The characters of a text with `p` put in front of every line; `atStart` tells whether
the next character begins a line. -/
def prependEach (p : List Char) : Bool → List Char → List Char
  | _, [] => []
  | atStart, c :: cs =>
    (if atStart then p else []) ++ c :: prependEach p (decide (c = newline)) cs

/-- The text `s` with `p` put in front of every line. -/
def shiftLines (p s : GoString) : GoString :=
  String.mk (prependEach p.data true s.data)

/-- A text without a newline character. -/
def noNewline (s : GoString) : Bool :=
  s.data.all fun c => decide (c ≠ newline)

/-- A Go string of printable ASCII characters other than the double quote and the
backslash. -/
def plainASCII (s : GoBytes) : Bool :=
  s.all fun b => decide (0x20 ≤ b.val ∧ b.val ≤ 0x7E ∧ b.val ≠ 0x22 ∧ b.val ≠ 0x5C)

/-- A tree whose selector path segments and name-binding names have no newline and whose
Raw values are printable ASCII without double quote and backslash. -/
def lineSafe {α : Type} : Expression α → Bool
  | .nil => true
  | .UnaryExpression _ operand => lineSafe operand
  | .BinaryExpression left _ right => lineSafe left && lineSafe right
  | .MatchExpression sel _ value =>
    sel.Path.all noNewline && (value.map fun v => plainASCII v.Raw).getD true
  | .CollectionExpression _ sel binding inner =>
    sel.Path.all noNewline && noNewline binding.Default && noNewline binding.Index &&
      noNewline binding.Value && lineSafe inner

/-- The lines one level deeper, `k` times. -/
def deepen (k : Nat) (lines : List (Nat × GoString)) : List (Nat × GoString) :=
  lines.map fun jc => (jc.1 + k, jc.2)

/-- The lines of the dump of a tree, each with its depth below the root and its text
after the indentation: the operator line, the lines of the node, the lines of the
children one level deeper (two levels for a collection), the closing line. -/
def dumpLines {α : Type} (tbl : Char → Bool) : Expression α → List (Nat × GoString)
  | .nil => []
  | .UnaryExpression op operand =>
    (0, UnaryOperator.String op ++ " \x7b") :: deepen 1 (dumpLines tbl operand) ++
      [(0, "\x7d")]
  | .BinaryExpression left op right =>
    (0, BinaryOperator.String op ++ " \x7b") :: deepen 1 (dumpLines tbl left) ++
      deepen 1 (dumpLines tbl right) ++ [(0, "\x7d")]
  | .MatchExpression sel op value =>
    (0, MatchOperator.String op ++ " \x7b") :: (1, "Selector: " ++ sel.String) ::
      (if printsValue op then
          [(1, "Value: " ++ Quote tbl ((value.map MatchValue.Raw).getD []))]
        else []) ++
      [(0, "\x7d")]
  | .CollectionExpression op sel binding inner =>
    (0, CollectionOperator.String op ++ " \x7b") :: (1, "Selector: " ++ sel.String) ::
      (1, "NameBinding: " ++ binding.String) :: deepen 2 (dumpLines tbl inner) ++
      [(0, "\x7d")]

/-- The text of the lines at level `n` with the indent `u`. -/
def renderLines (u : GoString) (n : Nat) : List (Nat × GoString) → GoString
  | [] => ""
  | jc :: rest => copies u (n + jc.1) ++ jc.2 ++ "\n" ++ renderLines u n rest

/-! ## Levels and lengths -/

/-- The number of levels the dump of a tree without nil child goes below the level of its
root: the largest `k` such that the dump at level `n` builds an indentation of `n + k`
units. A match node builds the indentation of its own level and of the next one. -/
def height {α : Type} : Expression α → Nat
  | .nil => 0
  | .UnaryExpression _ operand => height operand + 1
  | .BinaryExpression left _ right => max (height left) (height right) + 1
  | .MatchExpression _ _ _ => 1
  | .CollectionExpression _ _ _ inner => height inner + 2

/-- An indentation of `m` units of `u` can be built: `m` is at most the largest `int` and
so is the length `len(u) * m` of the indentation. -/
def indentFits (u : GoString) (m : Nat) : Bool :=
  decide (m ≤ 9223372036854775807 ∧ u.utf8ByteSize * m ≤ 9223372036854775807)

/-! ## Auxiliary lemmas -/

theorem copies_comm (u : GoString) (n : Nat) : u ++ copies u n = copies u n ++ u := by
  induction n with
  | zero => simp [copies]
  | succ k ih => rw [copies, ← String.append_assoc, ih]

theorem copies_empty (m : Nat) : copies "" m = "" := by
  induction m with
  | zero => rfl
  | succ k ih => rw [copies, ih]; rfl

theorem indentFits_iff (u : GoString) (m : Nat) :
    indentFits u m = true ↔
      m ≤ 9223372036854775807 ∧ u.utf8ByteSize * m ≤ 9223372036854775807 := by
  simp [indentFits]

theorem indentFits_mono (u : GoString) (m k : Nat) (h : indentFits u k = true) (hmk : m ≤ k) :
    indentFits u m = true := by
  rw [indentFits_iff] at h ⊢
  have hmul : u.utf8ByteSize * m ≤ u.utf8ByteSize * k := Nat.mul_le_mul_left _ hmk
  omega

theorem indentFits_empty (m : Nat) (h : m ≤ 9223372036854775807) : indentFits "" m = true := by
  rw [indentFits_iff]
  have : ("" : GoString).utf8ByteSize = 0 := rfl
  rw [this]
  omega

/-- The sum of a level and 1 or 2 is not changed by the 64 bits of `int` as long as it is
at most the largest `int`. -/
theorem wrapInt_succ (n : Nat) (h : n + 1 ≤ 9223372036854775807) :
    wrapInt ((n : Int) + 1) = (n : Int) + 1 := by
  unfold wrapInt
  omega

theorem wrapInt_add_two (n : Nat) (h : n + 2 ≤ 9223372036854775807) :
    wrapInt ((n : Int) + 2) = (n : Int) + 2 := by
  unfold wrapInt
  omega

theorem Repeat_natCast (u : GoString) (n : Nat) (h : indentFits u n = true) :
    Repeat u (n : Int) = some (copies u n) := by
  rw [indentFits_iff] at h
  have h1 : ¬ ((n : Int) < 0) := by omega
  have h2 : ¬ (maxInt < (n : Int) ∨ maxInt < (u.utf8ByteSize : Int) * (n : Int)) := by
    have hc : (u.utf8ByteSize : Int) * (n : Int) = ((u.utf8ByteSize * n : Nat) : Int) := by
      push_cast; rfl
    rw [hc]
    unfold maxInt
    omega
  unfold Repeat
  rw [if_neg h1, if_neg h2]
  by_cases hu : u = ""
  · rw [if_pos hu, hu, copies_empty]
  · rw [if_neg hu, Int.toNat_ofNat]

theorem Repeat_natCast_succ (u : GoString) (n : Nat) (h : indentFits u (n + 1) = true) :
    Repeat u ((n : Int) + 1) = some (copies u (n + 1)) := by
  have := Repeat_natCast u (n + 1) h
  exact_mod_cast this

theorem Repeat_neg (u : GoString) (l : Int) (h : l < 0) : Repeat u l = none := by
  simp [Repeat, h]

/-- When `Repeat` has a result, the count is a level at which the indentation can be
built, and the result is the indentation. -/
theorem Repeat_eq_some (u : GoString) (l : Int) (i : GoString) (h : Repeat u l = some i) :
    ∃ m : Nat, l = (m : Int) ∧ indentFits u m = true ∧ i = copies u m := by
  unfold Repeat at h
  by_cases h1 : l < 0
  · rw [if_pos h1] at h; exact absurd h (by simp)
  · rw [if_neg h1] at h
    by_cases h2 : maxInt < l ∨ maxInt < (u.utf8ByteSize : Int) * l
    · rw [if_pos h2] at h; exact absurd h (by simp)
    · rw [if_neg h2] at h
      have hl : l = ((l.toNat : Nat) : Int) := by omega
      have hfit : indentFits u l.toNat = true := by
        rw [indentFits_iff]
        have hc : (u.utf8ByteSize : Int) * l = ((u.utf8ByteSize * l.toNat : Nat) : Int) := by
          push_cast; rw [← hl]
        rw [hc] at h2
        unfold maxInt at h2
        omega
      refine ⟨l.toNat, hl, hfit, ?_⟩
      by_cases hu : u = ""
      · rw [if_pos hu] at h
        rw [hu, copies_empty]
        exact (Option.some.inj h).symm
      · rw [if_neg hu] at h
        exact (Option.some.inj h).symm

theorem Repeat_isSome_natCast (u : GoString) (n : Nat) (i : GoString)
    (h : Repeat u (n : Int) = some i) : indentFits u n = true := by
  obtain ⟨m, hm, hfit, _⟩ := Repeat_eq_some u n i h
  have : n = m := by omega
  rw [this]; exact hfit

/-- A dump only appends: started on a sink holding `w`, it ends as it does on the empty
sink, with `w` in front. -/
theorem ExpressionDump_onto {α : Type} (tbl : Char → Bool) (e : Expression α) :
    ∀ (w u : GoString) (l : Int),
      e.ExpressionDump tbl w u l = (e.ExpressionDump tbl "" u l).onto w := by
  induction e with
  | nil => intro w u l; simp [Expression.ExpressionDump, Outcome.onto]
  | UnaryExpression op operand ih =>
    intro w u l
    simp only [Expression.ExpressionDump]
    cases hr : Repeat u l with
    | none => simp [Outcome.onto]
    | some li =>
      simp only []
      rw [ih (w ++ _), ih ("" ++ _)]
      cases Expression.ExpressionDump tbl operand "" u (wrapInt (l + 1)) <;>
        simp [Outcome.onto, String.append_assoc]
  | BinaryExpression left op right ihl ihr =>
    intro w u l
    simp only [Expression.ExpressionDump]
    cases hr : Repeat u l with
    | none => simp [Outcome.onto]
    | some li =>
      simp only []
      rw [ihl (w ++ _), ihl ("" ++ _)]
      cases Expression.ExpressionDump tbl left "" u (wrapInt (l + 1)) with
      | fault s => simp [Outcome.onto, String.append_assoc]
      | done s =>
        simp only [Outcome.onto]
        rw [ihr (w ++ _ ++ _), ihr ("" ++ _ ++ _)]
        cases Expression.ExpressionDump tbl right "" u (wrapInt (l + 1)) <;>
          simp [Outcome.onto, String.append_assoc]
  | MatchExpression sel op value =>
    intro w u l
    simp only [Expression.ExpressionDump]
    split
    · cases Repeat u l <;> cases Repeat u (wrapInt (l + 1)) <;> cases value <;>
        simp [Outcome.onto]
    · cases Repeat u l <;> cases Repeat u (wrapInt (l + 1)) <;> simp [Outcome.onto]
  | CollectionExpression op sel binding inner ih =>
    intro w u l
    simp only [Expression.ExpressionDump]
    cases hr : Repeat u l with
    | none => simp [Outcome.onto]
    | some li =>
      simp only []
      rw [ih (w ++ _), ih ("" ++ _)]
      cases Expression.ExpressionDump tbl inner "" u (wrapInt (l + 2)) <;>
        simp [Outcome.onto, String.append_assoc]

/-- When the dump on the empty sink completes with text `t`, the dump on any sink `w`
completes with `w ++ t`. -/
theorem ExpressionDump_of_dump {α : Type} (tbl : Char → Bool) (e : Expression α)
    (u : GoString) (l : Int) (t : GoString) (h : dump tbl e u l = some t) (w : GoString) :
    e.ExpressionDump tbl w u l = .done (w ++ t) := by
  rw [ExpressionDump_onto]
  unfold dump at h
  cases hd : Expression.ExpressionDump tbl e "" u l with
  | done s => rw [hd] at h; simp at h; simp [Outcome.onto, h]
  | fault s => rw [hd] at h; simp at h

/-- A dump that completes has built the indentation of its own level. -/
theorem indentFits_of_dump {α : Type} (tbl : Char → Bool) (e : Expression α) (u : GoString)
    (m : Nat) (t : GoString) (h : dump tbl e u (m : Int) = some t) :
    indentFits u m = true := by
  unfold dump at h
  cases hr : Repeat u (m : Int) with
  | some i => exact Repeat_isSome_natCast u m i hr
  | none =>
    exfalso
    cases e with
    | nil => simp [Expression.ExpressionDump] at h
    | UnaryExpression op X => simp [Expression.ExpressionDump, hr] at h
    | BinaryExpression X op Y => simp [Expression.ExpressionDump, hr] at h
    | MatchExpression sel op value =>
      by_cases hp : printsValue op = true <;>
        simp [Expression.ExpressionDump, hr, hp] at h
    | CollectionExpression op sel nb E => simp [Expression.ExpressionDump, hr] at h

theorem appendEscapedRune_plain (tbl : Char → Bool) (buf : GoString) (c : Char)
    (h : 0x20 ≤ c.toNat ∧ c.toNat ≤ 0x7E ∧ c ≠ dquote ∧ c ≠ backslash) :
    appendEscapedRune tbl buf c = buf.push c := by
  obtain ⟨h1, h2, h3, h4⟩ := h
  have hp : IsPrint tbl c = true := by
    unfold IsPrint
    have : c.toNat ≤ 0xFF := by omega
    simp [this, h1, h2]
  unfold appendEscapedRune
  simp [h3, h4, hp]

theorem toNat_ofNat_byte (b : Byte) : (Char.ofNat b.val).toNat = b.val := by
  have hb : b.val < 256 := b.isLt
  have hv : Nat.isValidChar b.val := Or.inl (by omega)
  simp [Char.ofNat, hv, Char.toNat, Char.ofNatAux, UInt32.toNat]

theorem plainASCII_cons (b : Byte) (rest : GoBytes) :
    plainASCII (b :: rest) = true ↔
      (0x20 ≤ b.val ∧ b.val ≤ 0x7E ∧ b.val ≠ 0x22 ∧ b.val ≠ 0x5C) ∧ plainASCII rest = true := by
  simp [plainASCII]

theorem quoteLoop_plain (tbl : Char → Bool) (s : GoBytes) :
    ∀ buf : GoString, plainASCII s = true →
      quoteLoop tbl 0 s buf = buf ++ asciiText s := by
  induction s with
  | nil => intro buf _; apply String.ext; simp [quoteLoop, asciiText]
  | cons b rest ih =>
    intro buf h
    obtain ⟨⟨h1, h2, h3, h4⟩, hrest⟩ := (plainASCII_cons b rest).mp h
    have hlt : b.val < 0x80 := by omega
    have hne : ¬ (b.val = RuneError) := by
      unfold RuneError; omega
    have hto := toNat_ofNat_byte b
    have hq : Char.ofNat b.val ≠ dquote := by
      intro hc
      have := congrArg Char.toNat hc
      rw [hto] at this
      exact h3 this
    have hb : Char.ofNat b.val ≠ backslash := by
      intro hc
      have := congrArg Char.toNat hc
      rw [hto] at this
      exact h4 this
    have happ := appendEscapedRune_plain tbl buf (Char.ofNat b.val)
      ⟨by omega, by omega, hq, hb⟩
    have step : quoteLoop tbl 0 (b :: rest) buf =
        quoteLoop tbl 0 rest (buf.push (Char.ofNat b.val)) := by
      simp [quoteLoop, hlt, hne, happ]
    rw [step, ih _ hrest]
    apply String.ext
    simp [asciiText]

/-- On printable ASCII without double quote and backslash, `%q` only adds the two quotes. -/
theorem Quote_plain (tbl : Char → Bool) (r : GoBytes) (h : plainASCII r = true) :
    Quote tbl r = "\"" ++ asciiText r ++ "\"" := by
  unfold Quote
  rw [quoteLoop_plain tbl r _ h]
  apply String.ext
  simp [String.singleton, dquote]

/-- The text of a list of ASCII bytes has these bytes. -/
theorem bytesOf_asciiText (r : GoBytes) (h : ∀ b ∈ r, b.val < 0x80) :
    bytesOf (asciiText r) = r := by
  induction r with
  | nil => rfl
  | cons b rest ih =>
    have hb : b.val < 0x80 := h b (List.mem_cons_self _ _)
    have hto := toNat_ofNat_byte b
    have he : encodeRune (Char.ofNat b.val) = [b] := by
      unfold encodeRune
      rw [hto, if_pos hb]
      congr 1
      apply Fin.ext
      simp [Fin.ofNat]
    have ih2 := ih (fun c hc => h c (List.mem_cons_of_mem _ hc))
    simp only [bytesOf, asciiText, List.map_cons, List.flatMap_cons, he] at ih2 ⊢
    rw [ih2]
    rfl

theorem plainASCII_lt (r : GoBytes) (h : plainASCII r = true) : ∀ b ∈ r, b.val < 0x80 := by
  intro b hb
  simp only [plainASCII, List.all_eq_true, decide_eq_true_eq] at h
  have := h b hb
  omega

/-- The value-printing case of the match dump on a Raw that `%q` leaves unescaped. -/
theorem ExpressionDump_match_plain {α : Type} (tbl : Char → Bool) (u : GoString) (n : Nat)
    (s : Selector) (op : MatchOperator) (r : GoBytes) (cv : α) (w : GoString)
    (hfit : indentFits u (n + 1) = true) (hop : printsValue op = true)
    (hr : plainASCII r = true) :
    (Expression.MatchExpression s op (some ⟨r, cv⟩)).ExpressionDump tbl w u n =
      .done (w ++ (copies u n ++ MatchOperator.String op ++ " \x7b\n" ++
        copies u (n + 1) ++ "Selector: " ++ s.String ++ "\n" ++
        copies u (n + 1) ++ "Value: \"" ++ asciiText r ++ "\"\n" ++
        copies u n ++ "\x7d\n")) := by
  have hn1 : n + 1 ≤ 9223372036854775807 := ((indentFits_iff u (n + 1)).mp hfit).1
  simp only [Expression.ExpressionDump, hop, if_true,
    Repeat_natCast u n (indentFits_mono u n (n + 1) hfit (by omega)), wrapInt_succ n hn1,
    Repeat_natCast_succ u n hfit, Quote_plain tbl r hr]
  congr 1
  apply String.ext
  simp [String.append_assoc]

/-! ## The dump of a match expression -/

/-- C1, as the code has it: for a match expression with a non-nil Value and a declared
operator, at a level `n` whose indentation of `n + 1` units can be built, the dump is
the operator line, the Selector line, the closing line, and between the last two the
indented line of `Value: ` and the quoted Raw exactly when the operator is none of
IsEmpty, IsNotEmpty, Matches and NotMatches. -/
theorem MatchExpression_dump_value_line {α : Type} (tbl : Char → Bool) (sel : Selector)
    (op : MatchOperator) (v : MatchValue α) (w u : GoString) (n : Nat)
    (hop : op ∈ [MatchEqual, MatchNotEqual, MatchIn, MatchNotIn, MatchIsEmpty,
      MatchIsNotEmpty, MatchMatches, MatchNotMatches, MatchGreaterOrEqualThan,
      MatchGreaterThan, MatchLesserOrEqualThan, MatchLesserThan])
    (hfit : indentFits u (n + 1) = true) :
    (Expression.MatchExpression sel op (some v)).ExpressionDump tbl w u n =
      .done (w ++ (copies u n ++ MatchOperator.String op ++ " \x7b\n" ++
        copies u (n + 1) ++ "Selector: " ++ sel.String ++ "\n" ++
        (if op = MatchIsEmpty ∨ op = MatchIsNotEmpty ∨ op = MatchMatches ∨
            op = MatchNotMatches then ""
          else copies u (n + 1) ++ "Value: " ++ Quote tbl v.Raw ++ "\n") ++
        copies u n ++ "\x7d\n")) := by
  have hn1 : n + 1 ≤ 9223372036854775807 := ((indentFits_iff u (n + 1)).mp hfit).1
  have hr0 := Repeat_natCast u n (indentFits_mono u n (n + 1) hfit (by omega))
  have hr1 := Repeat_natCast_succ u n hfit
  have hw := wrapInt_succ n hn1
  simp only [List.mem_cons, List.mem_singleton, List.not_mem_nil, or_false] at hop
  rcases hop with h | h | h | h | h | h | h | h | h | h | h | h <;> subst h <;>
    simp [Expression.ExpressionDump, printsValue, hr0, hr1, hw,
      MatchEqual, MatchNotEqual, MatchIn, MatchNotIn, MatchIsEmpty, MatchIsNotEmpty,
      MatchMatches, MatchNotMatches, MatchGreaterOrEqualThan, MatchGreaterThan,
      MatchLesserOrEqualThan, MatchLesserThan, String.append_assoc]

/-- The theorem `MatchExpression_dump_value_line` at the operator GreaterThan. -/
theorem MatchExpression_dump_value_line_witness :
    (MatchGreaterThan ∈ [MatchEqual, MatchNotEqual, MatchIn, MatchNotIn, MatchIsEmpty,
      MatchIsNotEmpty, MatchMatches, MatchNotMatches, MatchGreaterOrEqualThan,
      MatchGreaterThan, MatchLesserOrEqualThan, MatchLesserThan] ∧
      indentFits "  " (0 + 1) = true) ∧
    (Expression.MatchExpression ⟨SelectorTypeBexpr, ["age"]⟩ MatchGreaterThan
        (some (⟨bytesOf "18", ()⟩ : MatchValue Unit))).ExpressionDump (fun _ => true) "" "  "
        ((0 : Nat) : Int) =
      .done ("" ++ (copies "  " 0 ++ MatchOperator.String MatchGreaterThan ++ " \x7b\n" ++
        copies "  " (0 + 1) ++ "Selector: " ++
        Selector.String ⟨SelectorTypeBexpr, ["age"]⟩ ++ "\n" ++
        (if MatchGreaterThan = MatchIsEmpty ∨ MatchGreaterThan = MatchIsNotEmpty ∨
            MatchGreaterThan = MatchMatches ∨ MatchGreaterThan = MatchNotMatches then ""
          else copies "  " (0 + 1) ++ "Value: " ++
            Quote (fun _ => true)
              (MatchValue.Raw (⟨bytesOf "18", ()⟩ : MatchValue Unit)) ++ "\n") ++
        copies "  " 0 ++ "\x7d\n")) :=
  ⟨⟨by decide, by decide⟩,
    MatchExpression_dump_value_line (fun _ => true) ⟨SelectorTypeBexpr, ["age"]⟩
      MatchGreaterThan ⟨bytesOf "18", ()⟩ "" "  " 0 (by decide) (by decide)⟩

/-- C1 fails at the operator Matches: with a non-nil Value, the dump of a Matches
expression has the operator line, the Selector line and the closing line, and no Value
line. It also fails at the largest level: there the dump of an Equal expression with a
non-nil Value panics, the sum `level+1` being negative, and no line is written. -/
theorem MatchExpression_dump_Matches_no_value_line :
    MatchMatches ≠ MatchIsEmpty ∧ MatchMatches ≠ MatchIsNotEmpty ∧
    (Expression.MatchExpression ⟨SelectorTypeBexpr, ["name"]⟩ MatchMatches
        (some (⟨bytesOf "^a", ()⟩ : MatchValue Unit))).ExpressionDump (fun _ => true)
        "" "  " 0 =
      .done "Matches \x7b\n  Selector: name\n\x7d\n" ∧
    (Expression.MatchExpression ⟨SelectorTypeBexpr, ["name"]⟩ MatchMatches
        (some (⟨bytesOf "^a", ()⟩ : MatchValue Unit))).ExpressionDump (fun _ => true)
        "" "  " 0 ≠
      .done "Matches \x7b\n  Selector: name\n  Value: \"^a\"\n\x7d\n" ∧
    (Expression.MatchExpression ⟨SelectorTypeBexpr, ["name"]⟩ MatchEqual
        (some (⟨bytesOf "a", ()⟩ : MatchValue Unit))).ExpressionDump (fun _ => true)
        "" "" 9223372036854775807 = .fault "" := by
  decide

/-- C2 fails at the largest level: with the empty indent and the level `MaxInt64`, the
sum `level+1` is negative, `strings.Repeat` panics and nothing is written. -/
theorem MatchExpression_dump_exact_fails_largest_level :
    (0 : Int) ≤ 9223372036854775807 ∧
    plainASCII (bytesOf "active") = true ∧
    (Expression.MatchExpression ⟨SelectorTypeBexpr, ["status"]⟩ MatchEqual
        (some (⟨bytesOf "active", ()⟩ : MatchValue Unit))).ExpressionDump (fun _ => true)
        "" "" 9223372036854775807 = .fault "" := by
  decide

/-- C2, as the code has it: for the eight operators of the first case, a Raw of printable
ASCII without double quote and backslash, and a level `n` whose indentation of `n + 1`
units can be built (`n + 1` and `len(u) * (n + 1)` at most the largest `int`), the dump
writes the operator line at level `n`, the Selector line and the line `Value: "<Raw>"`
at level `n + 1`, and the closing line at level `n`, the Raw standing between the quotes
as the text that has its bytes; and the example of the specification. -/
theorem MatchExpression_dump_exact {α : Type} :
    (∀ (tbl : Char → Bool) (u : GoString) (n : Nat) (s : Selector) (op : MatchOperator)
      (r : GoBytes) (cv : α) (w : GoString),
      op ∈ [MatchEqual, MatchNotEqual, MatchIn, MatchNotIn, MatchGreaterOrEqualThan,
        MatchGreaterThan, MatchLesserOrEqualThan, MatchLesserThan] →
      plainASCII r = true →
      indentFits u (n + 1) = true →
      (Expression.MatchExpression s op (some ⟨r, cv⟩)).ExpressionDump tbl w u n =
        .done (w ++ (copies u n ++ MatchOperator.String op ++ " \x7b\n" ++
          copies u (n + 1) ++ "Selector: " ++ s.String ++ "\n" ++
          copies u (n + 1) ++ "Value: \"" ++ asciiText r ++ "\"\n" ++
          copies u n ++ "\x7d\n"))) ∧
    (∀ r : GoBytes, plainASCII r = true → bytesOf (asciiText r) = r) ∧
    (∀ (tbl : Char → Bool) (cv : α),
      (Expression.MatchExpression ⟨SelectorTypeBexpr, ["status"]⟩ MatchEqual
          (some ⟨bytesOf "active", cv⟩)).ExpressionDump tbl "" "  " 0 =
        .done "Equal \x7b\n  Selector: status\n  Value: \"active\"\n\x7d\n") := by
  have key : ∀ (tbl : Char → Bool) (u : GoString) (n : Nat) (s : Selector)
      (op : MatchOperator) (r : GoBytes) (cv : α) (w : GoString),
      op ∈ [MatchEqual, MatchNotEqual, MatchIn, MatchNotIn, MatchGreaterOrEqualThan,
        MatchGreaterThan, MatchLesserOrEqualThan, MatchLesserThan] →
      plainASCII r = true →
      indentFits u (n + 1) = true →
      (Expression.MatchExpression s op (some ⟨r, cv⟩)).ExpressionDump tbl w u n =
        .done (w ++ (copies u n ++ MatchOperator.String op ++ " \x7b\n" ++
          copies u (n + 1) ++ "Selector: " ++ s.String ++ "\n" ++
          copies u (n + 1) ++ "Value: \"" ++ asciiText r ++ "\"\n" ++
          copies u n ++ "\x7d\n")) := by
    intro tbl u n s op r cv w hop hr hfit
    have hp : printsValue op = true := by
      simp only [List.mem_cons, List.mem_singleton, List.not_mem_nil, or_false] at hop
      rcases hop with h | h | h | h | h | h | h | h <;> subst h <;> decide
    exact ExpressionDump_match_plain tbl u n s op r cv w hfit hp hr
  refine ⟨key, fun r hr => bytesOf_asciiText r (plainASCII_lt r hr), ?_⟩
  intro tbl cv
  have h := key tbl "  " 0 ⟨SelectorTypeBexpr, ["status"]⟩ MatchEqual (bytesOf "active") cv ""
    (by decide) (by decide) (by decide)
  rw [show ((0 : Nat) : Int) = 0 from rfl] at h
  rw [h]
  decide

/-- The theorem `MatchExpression_dump_exact` at the operator In, Raw `[1, 2]`, level 1. -/
theorem MatchExpression_dump_exact_witness :
    (MatchIn ∈ [MatchEqual, MatchNotEqual, MatchIn, MatchNotIn, MatchGreaterOrEqualThan,
        MatchGreaterThan, MatchLesserOrEqualThan, MatchLesserThan] ∧
      plainASCII (bytesOf "[1, 2]") = true ∧
      indentFits "\t" (1 + 1) = true) ∧
    (Expression.MatchExpression ⟨SelectorTypeJsonPointer, ["a", "b"]⟩ MatchIn
        (some (⟨bytesOf "[1, 2]", ()⟩ : MatchValue Unit))).ExpressionDump (fun _ => false)
        "" "\t" ((1 : Nat) : Int) =
      .done ("" ++ (copies "\t" 1 ++ MatchOperator.String MatchIn ++ " \x7b\n" ++
        copies "\t" (1 + 1) ++ "Selector: " ++
        Selector.String ⟨SelectorTypeJsonPointer, ["a", "b"]⟩ ++ "\n" ++
        copies "\t" (1 + 1) ++ "Value: \"" ++ asciiText (bytesOf "[1, 2]") ++ "\"\n" ++
        copies "\t" 1 ++ "\x7d\n")) :=
  ⟨⟨by decide, by decide, by decide⟩,
    (MatchExpression_dump_exact (α := Unit)).1 (fun _ => false) "\t" 1
      ⟨SelectorTypeJsonPointer, ["a", "b"]⟩ MatchIn (bytesOf "[1, 2]") () ""
      (by decide) (by decide) (by decide)⟩

/-- C3 fails at the largest level: with the empty indent and the level `MaxInt64`, the
dump of an IsEmpty expression with a nil Value panics, the sum `level+1` being negative. -/
theorem MatchExpression_dump_nil_value_fails_largest_level :
    (0 : Int) ≤ 9223372036854775807 ∧
    (Expression.MatchExpression ⟨SelectorTypeBexpr, ["tags"]⟩ MatchIsEmpty
        (none : Option (MatchValue Unit))).ExpressionDump (fun _ => true) "" ""
        9223372036854775807 = .fault "" := by
  decide

/-- C3, as the code has it: at a level `n` whose indentation of `n + 1` units can be built,
a match expression with operator IsEmpty or IsNotEmpty and a nil Value is dumped without
a fault, as the operator line, the Selector line and the closing line, with no Value line;
and the example of the specification. -/
theorem MatchExpression_dump_nil_value {α : Type} :
    (∀ (tbl : Char → Bool) (u : GoString) (n : Nat) (s : Selector) (op : MatchOperator)
      (w : GoString), op = MatchIsEmpty ∨ op = MatchIsNotEmpty →
      indentFits u (n + 1) = true →
      (Expression.MatchExpression s op (none : Option (MatchValue α))).ExpressionDump
          tbl w u n =
        .done (w ++ (copies u n ++ MatchOperator.String op ++ " \x7b\n" ++
          copies u (n + 1) ++ "Selector: " ++ s.String ++ "\n" ++
          copies u n ++ "\x7d\n"))) ∧
    (∀ tbl : Char → Bool,
      (Expression.MatchExpression ⟨SelectorTypeBexpr, ["tags"]⟩ MatchIsEmpty
          (none : Option (MatchValue α))).ExpressionDump tbl "" "  " 0 =
        .done "Is Empty \x7b\n  Selector: tags\n\x7d\n") := by
  have key : ∀ (tbl : Char → Bool) (u : GoString) (n : Nat) (s : Selector)
      (op : MatchOperator) (w : GoString), op = MatchIsEmpty ∨ op = MatchIsNotEmpty →
      indentFits u (n + 1) = true →
      (Expression.MatchExpression s op (none : Option (MatchValue α))).ExpressionDump
          tbl w u n =
        .done (w ++ (copies u n ++ MatchOperator.String op ++ " \x7b\n" ++
          copies u (n + 1) ++ "Selector: " ++ s.String ++ "\n" ++
          copies u n ++ "\x7d\n")) := by
    intro tbl u n s op w hop hfit
    have hp : printsValue op = false := by
      rcases hop with h | h <;> subst h <;> decide
    have hn1 : n + 1 ≤ 9223372036854775807 := ((indentFits_iff u (n + 1)).mp hfit).1
    simp [Expression.ExpressionDump, hp,
      Repeat_natCast u n (indentFits_mono u n (n + 1) hfit (by omega)),
      wrapInt_succ n hn1, Repeat_natCast_succ u n hfit]
  refine ⟨key, ?_⟩
  intro tbl
  have h := key tbl "  " 0 ⟨SelectorTypeBexpr, ["tags"]⟩ MatchIsEmpty "" (Or.inl rfl)
    (by decide)
  rw [show ((0 : Nat) : Int) = 0 from rfl] at h
  rw [h]
  decide

/-- The theorem `MatchExpression_dump_nil_value` at IsNotEmpty, level 2, a used sink. -/
theorem MatchExpression_dump_nil_value_witness :
    ((MatchIsNotEmpty = MatchIsEmpty ∨ MatchIsNotEmpty = MatchIsNotEmpty) ∧
      indentFits "  " (2 + 1) = true) ∧
    (Expression.MatchExpression ⟨SelectorTypeBexpr, ["a", "b"]⟩ MatchIsNotEmpty
        (none : Option (MatchValue Unit))).ExpressionDump (fun _ => false) "x\n" "  "
        ((2 : Nat) : Int) =
      .done ("x\n" ++ (copies "  " 2 ++ MatchOperator.String MatchIsNotEmpty ++ " \x7b\n" ++
        copies "  " (2 + 1) ++ "Selector: " ++
        Selector.String ⟨SelectorTypeBexpr, ["a", "b"]⟩ ++ "\n" ++
        copies "  " 2 ++ "\x7d\n")) :=
  ⟨⟨by decide, by decide⟩,
    (MatchExpression_dump_nil_value (α := Unit)).1 (fun _ => false) "  " 2
      ⟨SelectorTypeBexpr, ["a", "b"]⟩ MatchIsNotEmpty "x\n" (by decide) (by decide)⟩

/-! ## Selectors -/

theorem foldl_Join_step (sep : GoString) (rest : List GoString) :
    ∀ e : GoString, rest.foldl (fun b s => b ++ sep ++ s) e = separated sep (e :: rest) := by
  induction rest with
  | nil => intro e; rfl
  | cons a rest ih =>
    intro e
    rw [List.foldl_cons, ih]
    cases rest with
    | nil => simp [separated]
    | cons b rest => simp [separated, String.append_assoc]

theorem Join_eq_separated (elems : List GoString) (sep : GoString) :
    Join elems sep = separated sep elems := by
  cases elems with
  | nil => rfl
  | cons e rest => exact foldl_Join_step sep rest e

/-- C4: for a non-empty Path, `Selector.String` is the segments in their order with `.`
between consecutive segments for the Bexpr type and with `/` between consecutive segments
(none in front) for the JsonPointer type; `a.b` and `a/b` for the Path `a`, `b`. -/
theorem Selector_String_joined :
    (∀ sel : Selector, sel.Path ≠ [] →
      (sel.«Type» = SelectorTypeBexpr → sel.String = separated "." sel.Path) ∧
      (sel.«Type» = SelectorTypeJsonPointer → sel.String = separated "/" sel.Path)) ∧
    (∀ (t : SelectorType) (a : GoString) (rest : List GoString),
      t = SelectorTypeBexpr ∨ t = SelectorTypeJsonPointer →
      ∃ tail : GoString, Selector.String ⟨t, a :: rest⟩ = a ++ tail) ∧
    Selector.String ⟨SelectorTypeBexpr, ["a", "b"]⟩ = "a.b" ∧
    Selector.String ⟨SelectorTypeJsonPointer, ["a", "b"]⟩ = "a/b" := by
  have key : ∀ sel : Selector, sel.Path ≠ [] →
      (sel.«Type» = SelectorTypeBexpr → sel.String = separated "." sel.Path) ∧
      (sel.«Type» = SelectorTypeJsonPointer → sel.String = separated "/" sel.Path) := by
    intro sel hne
    have hlen : sel.Path.length ≠ 0 := by
      intro h; exact hne (List.length_eq_zero.mp h)
    constructor
    · intro ht
      simp [Selector.String, hlen, ht, Join_eq_separated]
    · intro ht
      simp [Selector.String, hlen, ht, Join_eq_separated, SelectorTypeJsonPointer,
        SelectorTypeBexpr]
  refine ⟨key, ?_, by decide, by decide⟩
  intro t a rest ht
  have hsep : ∀ sep : GoString, ∃ tail : GoString, separated sep (a :: rest) = a ++ tail := by
    intro sep
    cases rest with
    | nil => exact ⟨"", by simp [separated]⟩
    | cons b rest => exact ⟨sep ++ separated sep (b :: rest), by simp [separated, String.append_assoc]⟩
  rcases ht with h | h
  · obtain ⟨tail, htail⟩ := hsep "."
    exact ⟨tail, by rw [(key ⟨t, a :: rest⟩ (List.cons_ne_nil _ _)).1 h]; exact htail⟩
  · obtain ⟨tail, htail⟩ := hsep "/"
    exact ⟨tail, by rw [(key ⟨t, a :: rest⟩ (List.cons_ne_nil _ _)).2 h]; exact htail⟩

/-- The theorem `Selector_String_joined` at the JsonPointer Path `x`, `y`, `z`. -/
theorem Selector_String_joined_witness :
    (Selector.Path ⟨SelectorTypeJsonPointer, ["x", "y", "z"]⟩ ≠ [] ∧
      Selector.«Type» ⟨SelectorTypeJsonPointer, ["x", "y", "z"]⟩ = SelectorTypeJsonPointer) ∧
    Selector.String ⟨SelectorTypeJsonPointer, ["x", "y", "z"]⟩ =
      separated "/" (Selector.Path ⟨SelectorTypeJsonPointer, ["x", "y", "z"]⟩) :=
  ⟨⟨by decide, by decide⟩,
    (Selector_String_joined.1 ⟨SelectorTypeJsonPointer, ["x", "y", "z"]⟩ (by decide)).2
      (by decide)⟩

/-- C5 fails: the JsonPointer rendering of the Path `a`, `b`, `c` is not `/a/b/c`. -/
theorem Selector_String_JsonPointer_not_leading_slash :
    Selector.String ⟨SelectorTypeJsonPointer, ["a", "b", "c"]⟩ ≠ "/a/b/c" := by
  decide

/-- C5, as the code has it: the JsonPointer rendering of the Path `a`, `b`, `c` is
`a/b/c`; for any three segments it begins with the first segment, the slashes standing
between the segments only. -/
theorem Selector_String_JsonPointer_three :
    Selector.String ⟨SelectorTypeJsonPointer, ["a", "b", "c"]⟩ = "a/b/c" ∧
    ∀ a b c : GoString,
      Selector.String ⟨SelectorTypeJsonPointer, [a, b, c]⟩ = a ++ "/" ++ b ++ "/" ++ c := by
  refine ⟨by decide, ?_⟩
  intro a b c
  simp [Selector.String, Join, SelectorTypeJsonPointer, SelectorTypeBexpr]

/-- C6: `Selector.String` is the empty string for every selector with an empty Path and
for every selector whose Type is neither Bexpr nor JsonPointer. -/
theorem Selector_String_empty (sel : Selector)
    (h : sel.Path = [] ∨ (sel.«Type» ≠ SelectorTypeBexpr ∧
      sel.«Type» ≠ SelectorTypeJsonPointer)) :
    sel.String = "" := by
  rcases h with h | ⟨h1, h2⟩
  · simp [Selector.String, h]
  · simp [Selector.String, h1, h2]

/-- The theorem `Selector_String_empty` at the Unknown type with a Path of two segments. -/
theorem Selector_String_empty_witness :
    (Selector.Path ⟨SelectorTypeUnknown, ["a", "b"]⟩ = [] ∨
      (Selector.«Type» ⟨SelectorTypeUnknown, ["a", "b"]⟩ ≠ SelectorTypeBexpr ∧
        Selector.«Type» ⟨SelectorTypeUnknown, ["a", "b"]⟩ ≠ SelectorTypeJsonPointer)) ∧
    Selector.String ⟨SelectorTypeUnknown, ["a", "b"]⟩ = "" :=
  ⟨by decide, Selector_String_empty ⟨SelectorTypeUnknown, ["a", "b"]⟩ (by decide)⟩


/-! ## Operator labels and name bindings -/

/-- C7: each of the four `String` methods returns `UNKNOWN` exactly on the integers that
are no declared constant of its type, negative ones included, and on no declared
constant. -/
theorem operator_String_UNKNOWN :
    (∀ op : Int, UnaryOperator.String op = "UNKNOWN" ↔ op ≠ 0) ∧
    (∀ op : Int, BinaryOperator.String op = "UNKNOWN" ↔ (op < 0 ∨ 1 < op)) ∧
    (∀ op : Int, MatchOperator.String op = "UNKNOWN" ↔ (op < 0 ∨ 11 < op)) ∧
    (∀ op : Int,
      CollectionOperator.String op = "UNKNOWN" ↔ (op < 0 ∨ 1 < op)) ∧
    "UNKNOWN" ∉ [UnaryOpNot].map UnaryOperator.String ∧
    "UNKNOWN" ∉ [BinaryOpAnd, BinaryOpOr].map BinaryOperator.String ∧
    "UNKNOWN" ∉ [MatchEqual, MatchNotEqual, MatchIn, MatchNotIn, MatchIsEmpty,
      MatchIsNotEmpty, MatchMatches, MatchNotMatches, MatchGreaterOrEqualThan,
      MatchGreaterThan, MatchLesserOrEqualThan, MatchLesserThan].map MatchOperator.String ∧
    "UNKNOWN" ∉ [CollectionOpAny, CollectionOpAll].map CollectionOperator.String := by
  refine ⟨?_, ?_, ?_, ?_, by decide, by decide, by decide, by decide⟩
  · intro op
    by_cases h : op = 0
    · subst h; decide
    · simp [UnaryOperator.String, UnaryOpNot, h]
  · intro op
    by_cases hr : 0 ≤ op ∧ op ≤ 1
    · obtain ⟨h0, h1⟩ := hr
      interval_cases op <;> decide
    · have hout : op < 0 ∨ 1 < op := by omega
      have e0 : op ≠ 0 := by omega
      have e1 : op ≠ 1 := by omega
      simp [BinaryOperator.String, BinaryOpAnd, BinaryOpOr, hout, e0, e1]
  · intro op
    by_cases hr : 0 ≤ op ∧ op ≤ 11
    · obtain ⟨h0, h1⟩ := hr
      interval_cases op <;> decide
    · have hout : op < 0 ∨ 11 < op := by omega
      have e0 : op ≠ 0 := by omega
      have e1 : op ≠ 1 := by omega
      have e2 : op ≠ 2 := by omega
      have e3 : op ≠ 3 := by omega
      have e4 : op ≠ 4 := by omega
      have e5 : op ≠ 5 := by omega
      have e6 : op ≠ 6 := by omega
      have e7 : op ≠ 7 := by omega
      have e8 : op ≠ 8 := by omega
      have e9 : op ≠ 9 := by omega
      have e10 : op ≠ 10 := by omega
      have e11 : op ≠ 11 := by omega
      simp [MatchOperator.String, MatchEqual, MatchNotEqual, MatchIn, MatchNotIn,
        MatchIsEmpty, MatchIsNotEmpty, MatchMatches, MatchNotMatches,
        MatchGreaterOrEqualThan, MatchGreaterThan, MatchLesserOrEqualThan, MatchLesserThan,
        hout, e0, e1, e2, e3, e4, e5, e6, e7, e8, e9, e10, e11]
  · intro op
    by_cases hr : 0 ≤ op ∧ op ≤ 1
    · obtain ⟨h0, h1⟩ := hr
      interval_cases op <;> decide
    · have hout : op < 0 ∨ 1 < op := by omega
      have e0 : op ≠ 0 := by omega
      have e1 : op ≠ 1 := by omega
      simp [CollectionOperator.String, CollectionOpAny, CollectionOpAll, hout, e0, e1]

/-- C8: the description of a name binding is `Default ( d )`, `Index ( i )`, `Value ( v )`
or `Index & Value ( i, v )` according to its Mode, with exactly this spacing. -/
theorem CollectionNameBinding_String_format :
    (∀ b : CollectionNameBinding,
      (b.Mode = CollectionBindDefault → b.String = "Default ( " ++ b.Default ++ " )") ∧
      (b.Mode = CollectionBindIndex → b.String = "Index ( " ++ b.Index ++ " )") ∧
      (b.Mode = CollectionBindValue → b.String = "Value ( " ++ b.Value ++ " )") ∧
      (b.Mode = CollectionBindIndexAndValue →
        b.String = "Index & Value ( " ++ b.Index ++ ", " ++ b.Value ++ " )")) ∧
    (∀ d : GoString, CollectionNameBinding.String ⟨CollectionBindIndexAndValue, d, "i", "v"⟩ =
      "Index & Value ( i, v )") := by
  constructor
  · intro b
    refine ⟨?_, ?_, ?_, ?_⟩ <;> intro h <;>
      simp [CollectionNameBinding.String, h, CollectionBindDefault, CollectionBindIndex,
        CollectionBindValue, CollectionBindIndexAndValue]
  · intro d
    simp [CollectionNameBinding.String, CollectionBindDefault, CollectionBindIndex,
        CollectionBindValue, CollectionBindIndexAndValue]

/-- The theorem `CollectionNameBinding_String_format` at a binding of Mode Index. -/
theorem CollectionNameBinding_String_format_witness :
    CollectionNameBinding.Mode ⟨CollectionBindIndex, "d", "k", "v"⟩ = CollectionBindIndex ∧
    CollectionNameBinding.String ⟨CollectionBindIndex, "d", "k", "v"⟩ =
      "Index ( " ++ CollectionNameBinding.Index ⟨CollectionBindIndex, "d", "k", "v"⟩ ++ " )" :=
  ⟨by decide,
    (CollectionNameBinding_String_format.1 ⟨CollectionBindIndex, "d", "k", "v"⟩).2.1
      (by decide)⟩


/-! ## Faults -/

theorem indentFits_false_of_le (u : GoString) (m k : Nat) (h : indentFits u m = false)
    (hmk : m ≤ k) : indentFits u k = false := by
  cases hk : indentFits u k with
  | false => rfl
  | true => rw [indentFits_mono u m k hk hmk] at h; exact absurd h (by simp)

theorem indentFits_false_of_gt (u : GoString) (m : Nat) (h : 9223372036854775807 < m) :
    indentFits u m = false := by
  cases hk : indentFits u m with
  | false => rfl
  | true => have := ((indentFits_iff u m).mp hk).1; omega

theorem Repeat_natCast_none (u : GoString) (n : Nat) (h : indentFits u n = false) :
    Repeat u (n : Int) = none := by
  cases hr : Repeat u (n : Int) with
  | none => rfl
  | some i => rw [Repeat_isSome_natCast u n i hr] at h; exact absurd h (by simp)

theorem wrapInt_succ_neg (n : Nat) (h1 : n ≤ 9223372036854775807)
    (h2 : 9223372036854775807 < n + 1) : wrapInt ((n : Int) + 1) < 0 := by
  unfold wrapInt
  omega

theorem wrapInt_add_two_neg (n : Nat) (h1 : n ≤ 9223372036854775807)
    (h2 : 9223372036854775807 < n + 2) : wrapInt ((n : Int) + 2) < 0 := by
  unfold wrapInt
  omega

theorem printsValue_eq (op : MatchOperator) :
    printsValue op = decide (op ∈ valueOperators) := by
  unfold printsValue valueOperators
  apply decide_eq_decide.mpr
  simp only [List.mem_cons, List.mem_singleton, List.not_mem_nil, or_false]
  tauto

/-- At a negative level the dump of every node panics before it writes. -/
theorem ExpressionDump_neg {α : Type} (tbl : Char → Bool) (e : Expression α)
    (w u : GoString) (l : Int) (hl : l < 0) :
    e.ExpressionDump tbl w u l = .fault w := by
  cases e with
  | nil => rfl
  | UnaryExpression op operand => simp [Expression.ExpressionDump, Repeat_neg u l hl]
  | BinaryExpression left op right => simp [Expression.ExpressionDump, Repeat_neg u l hl]
  | MatchExpression sel op value =>
    simp only [Expression.ExpressionDump, Repeat_neg u l hl]
    split <;> rfl
  | CollectionExpression op sel binding inner =>
    simp [Expression.ExpressionDump, Repeat_neg u l hl]

/-- At a level whose indentation cannot be built the dump of every node panics before it
writes. -/
theorem ExpressionDump_unfit {α : Type} (tbl : Char → Bool) (e : Expression α)
    (w u : GoString) (n : Nat) (h : indentFits u n = false) :
    e.ExpressionDump tbl w u n = .fault w := by
  have hr := Repeat_natCast_none u n h
  cases e with
  | nil => rfl
  | UnaryExpression op operand => simp [Expression.ExpressionDump, hr]
  | BinaryExpression left op right => simp [Expression.ExpressionDump, hr]
  | MatchExpression sel op value =>
    simp only [Expression.ExpressionDump, hr]
    split <;> rfl
  | CollectionExpression op sel binding inner => simp [Expression.ExpressionDump, hr]

/-- The second indentation of a match node, of the level plus one, as `Repeat` gives it. -/
theorem Repeat_wrapInt_succ (u : GoString) (n : Nat) (hn : indentFits u n = true) :
    Repeat u (wrapInt ((n : Int) + 1)) =
      if indentFits u (n + 1) then some (copies u (n + 1)) else none := by
  have hn0 : n ≤ 9223372036854775807 := ((indentFits_iff u n).mp hn).1
  by_cases h1 : n + 1 ≤ 9223372036854775807
  · rw [wrapInt_succ n h1]
    cases hf : indentFits u (n + 1) with
    | true => simp [Repeat_natCast_succ u n hf]
    | false =>
      have := Repeat_natCast_none u (n + 1) hf
      simp only [Bool.false_eq_true, if_false]
      exact_mod_cast this
  · rw [Repeat_neg u _ (wrapInt_succ_neg n hn0 (by omega)),
      indentFits_false_of_gt u (n + 1) (by omega)]
    simp

/-- At a level that is not negative the dump panics exactly on the trees that are not
well-formed and on the trees for which an indentation cannot be built. -/
theorem ExpressionDump_faulted {α : Type} (tbl : Char → Bool) (e : Expression α) :
    ∀ (w u : GoString) (n : Nat),
      (e.ExpressionDump tbl w u n).faulted =
        (!wellFormed e || !indentFits u (n + height e)) := by
  induction e with
  | nil => intro w u n; rfl
  | UnaryExpression op operand ih =>
    intro w u n
    cases hn : indentFits u n with
    | false =>
      simp [Expression.ExpressionDump, Repeat_natCast_none u n hn, Outcome.faulted,
        indentFits_false_of_le u n (n + height (Expression.UnaryExpression op operand)) hn
          (by omega)]
    | true =>
      have hn0 : n ≤ 9223372036854775807 := ((indentFits_iff u n).mp hn).1
      by_cases h1 : n + 1 ≤ 9223372036854775807
      · have h := ih (w ++ (copies u n ++ UnaryOperator.String op ++ " \x7b\n")) u (n + 1)
        rw [show (((n + 1 : Nat) : Int)) = (n : Int) + 1 by push_cast; rfl] at h
        simp only [Expression.ExpressionDump, Repeat_natCast u n hn, wrapInt_succ n h1,
          wellFormed, height]
        rw [show n + (height operand + 1) = n + 1 + height operand by omega, ← h]
        cases Expression.ExpressionDump tbl operand _ u ((n : Int) + 1) <;> rfl
      · simp only [Expression.ExpressionDump, Repeat_natCast u n hn,
          ExpressionDump_neg tbl operand _ u _ (wrapInt_succ_neg n hn0 (by omega)),
          indentFits_false_of_gt u (n + height (Expression.UnaryExpression op operand))
            (by simp only [height]; omega)]
        simp [Outcome.faulted]
  | BinaryExpression left op right ihl ihr =>
    intro w u n
    cases hn : indentFits u n with
    | false =>
      simp [Expression.ExpressionDump, Repeat_natCast_none u n hn, Outcome.faulted,
        indentFits_false_of_le u n (n + height (Expression.BinaryExpression left op right)) hn
          (by omega)]
    | true =>
      have hn0 : n ≤ 9223372036854775807 := ((indentFits_iff u n).mp hn).1
      by_cases h1 : n + 1 ≤ 9223372036854775807
      · have hmax : indentFits u (n + (max (height left) (height right) + 1)) =
            (indentFits u (n + 1 + height left) && indentFits u (n + 1 + height right)) := by
          rcases Nat.le_total (height left) (height right) with hle | hle
          · rw [Nat.max_eq_right hle,
              show n + (height right + 1) = n + 1 + height right by omega]
            cases hr : indentFits u (n + 1 + height right) with
            | false => simp
            | true => simp [indentFits_mono u (n + 1 + height left) _ hr (by omega)]
          · rw [Nat.max_eq_left hle,
              show n + (height left + 1) = n + 1 + height left by omega]
            cases hl : indentFits u (n + 1 + height left) with
            | false => simp
            | true => simp [indentFits_mono u (n + 1 + height right) _ hl (by omega)]
        have h := ihl (w ++ (copies u n ++ BinaryOperator.String op ++ " \x7b\n")) u (n + 1)
        rw [show (((n + 1 : Nat) : Int)) = (n : Int) + 1 by push_cast; rfl] at h
        simp only [Expression.ExpressionDump, Repeat_natCast u n hn, wrapInt_succ n h1,
          wellFormed, height, hmax]
        cases hL : Expression.ExpressionDump tbl left _ u ((n : Int) + 1) with
        | fault s =>
          rw [hL] at h
          have h3 : (!wellFormed left || !indentFits u (n + 1 + height left)) = true := by
            rw [← h]; rfl
          rcases Bool.or_eq_true _ _ |>.mp h3 with h4 | h4
          · have : wellFormed left = false := by simpa using h4
            simp [this, Outcome.faulted]
          · have : indentFits u (n + 1 + height left) = false := by simpa using h4
            simp [this, Outcome.faulted]
        | done s =>
          rw [hL] at h
          have h3 : (!wellFormed left || !indentFits u (n + 1 + height left)) = false := by
            rw [← h]; rfl
          have hwl : wellFormed left = true := by
            cases hh : wellFormed left <;> simp [hh] at h3 ⊢
          have hfl : indentFits u (n + 1 + height left) = true := by
            cases hh : indentFits u (n + 1 + height left) <;> simp [hh] at h3 ⊢
          have h2 := ihr s u (n + 1)
          rw [show (((n + 1 : Nat) : Int)) = (n : Int) + 1 by push_cast; rfl] at h2
          simp only [hwl, hfl, Bool.true_and]
          rw [← h2]
          cases Expression.ExpressionDump tbl right s u ((n : Int) + 1) <;> rfl
      · simp only [Expression.ExpressionDump, Repeat_natCast u n hn,
          ExpressionDump_neg tbl left _ u _ (wrapInt_succ_neg n hn0 (by omega)),
          indentFits_false_of_gt u (n + height (Expression.BinaryExpression left op right))
            (by simp only [height]; omega)]
        simp [Outcome.faulted]
  | MatchExpression sel op value =>
    intro w u n
    cases hn : indentFits u n with
    | false =>
      have hf := indentFits_false_of_le u n
        (n + height (Expression.MatchExpression sel op value)) hn (by omega)
      simp only [Expression.ExpressionDump, Repeat_natCast_none u n hn, hf]
      split <;> simp [Outcome.faulted]
    | true =>
      simp only [Expression.ExpressionDump, Repeat_natCast u n hn, Repeat_wrapInt_succ u n hn,
        wellFormed, height, printsValue_eq]
      cases hf : indentFits u (n + 1) <;> by_cases hop : op ∈ valueOperators <;>
        cases value <;> simp [hop, Outcome.faulted]
  | CollectionExpression op sel binding inner ih =>
    intro w u n
    cases hn : indentFits u n with
    | false =>
      simp [Expression.ExpressionDump, Repeat_natCast_none u n hn, Outcome.faulted,
        indentFits_false_of_le u n
          (n + height (Expression.CollectionExpression op sel binding inner)) hn (by omega)]
    | true =>
      have hn0 : n ≤ 9223372036854775807 := ((indentFits_iff u n).mp hn).1
      by_cases h2 : n + 2 ≤ 9223372036854775807
      · have h := ih (w ++ (copies u n ++ CollectionOperator.String op ++ " \x7b\n" ++
          u ++ copies u n ++ "Selector: " ++ sel.String ++ "\n" ++
          u ++ copies u n ++ "NameBinding: " ++ binding.String ++ "\n")) u (n + 2)
        rw [show (((n + 2 : Nat) : Int)) = (n : Int) + 2 by push_cast; rfl] at h
        simp only [Expression.ExpressionDump, Repeat_natCast u n hn, wrapInt_add_two n h2,
          wellFormed, height]
        rw [show n + (height inner + 2) = n + 2 + height inner by omega, ← h]
        cases Expression.ExpressionDump tbl inner _ u ((n : Int) + 2) <;> rfl
      · simp only [Expression.ExpressionDump, Repeat_natCast u n hn,
          ExpressionDump_neg tbl inner _ u _ (wrapInt_add_two_neg n hn0 (by omega)),
          indentFits_false_of_gt u
            (n + height (Expression.CollectionExpression op sel binding inner))
            (by simp only [height]; omega)]
        simp [Outcome.faulted]

theorem wellFormed_iff_not_malformed {α : Type} (e : Expression α) :
    wellFormed e = (!e.isNil && !malformed e) := by
  induction e with
  | nil => rfl
  | UnaryExpression op operand ih =>
    have hn : (Expression.UnaryExpression op operand).isNil = false := rfl
    rw [hn]
    simp only [wellFormed, malformed, ih]
    cases operand.isNil <;> cases malformed operand <;> rfl
  | BinaryExpression left op right ihl ihr =>
    have hn : (Expression.BinaryExpression left op right).isNil = false := rfl
    rw [hn]
    simp only [wellFormed, malformed, ihl, ihr]
    cases left.isNil <;> cases right.isNil <;> cases malformed left <;>
      cases malformed right <;> rfl
  | MatchExpression sel op value =>
    have hn : (Expression.MatchExpression sel op value).isNil = false := rfl
    rw [hn]
    simp only [wellFormed, malformed]
    cases value <;> cases decide (op ∈ valueOperators) <;> rfl
  | CollectionExpression op sel binding inner ih =>
    have hn : (Expression.CollectionExpression op sel binding inner).isNil = false := rfl
    rw [hn]
    simp only [wellFormed, malformed, ih]
    cases inner.isNil <;> cases malformed inner <;> rfl

/-- A well-formed tree is dumped to the end at every level at which its indentations can
be built. -/
theorem dump_isSome_of_wellFormed {α : Type} (tbl : Char → Bool) (e : Expression α)
    (u : GoString) (n : Nat) (h : wellFormed e = true)
    (hfit : indentFits u (n + height e) = true) :
    ∃ t, dump tbl e u n = some t := by
  have hf := ExpressionDump_faulted tbl e "" u n
  rw [h, hfit] at hf
  unfold dump
  cases hd : Expression.ExpressionDump tbl e "" u n with
  | done s => exact ⟨s, rfl⟩
  | fault s => rw [hd] at hf; simp [Outcome.faulted] at hf

/-! ## The dump of a node from the dumps of its children -/

theorem indentFits_of_dump_succ {α : Type} (tbl : Char → Bool) (e : Expression α)
    (u : GoString) (n : Nat) (t : GoString) (h : dump tbl e u ((n : Int) + 1) = some t) :
    indentFits u (n + 1) = true := by
  have h2 : dump tbl e u ((n + 1 : Nat) : Int) = some t := by exact_mod_cast h
  exact indentFits_of_dump tbl e u (n + 1) t h2

theorem indentFits_of_dump_add_two {α : Type} (tbl : Char → Bool) (e : Expression α)
    (u : GoString) (n : Nat) (t : GoString) (h : dump tbl e u ((n : Int) + 2) = some t) :
    indentFits u (n + 2) = true := by
  have h2 : dump tbl e u ((n + 2 : Nat) : Int) = some t := by exact_mod_cast h
  exact indentFits_of_dump tbl e u (n + 2) t h2

theorem ExpressionDump_unary {α : Type} (tbl : Char → Bool) (op : UnaryOperator)
    (X : Expression α) (u : GoString) (n : Nat) (t : GoString)
    (hX : dump tbl X u ((n : Int) + 1) = some t) (w : GoString) :
    (Expression.UnaryExpression op X).ExpressionDump tbl w u n =
      .done (w ++ (copies u n ++ UnaryOperator.String op ++ " \x7b\n" ++ t ++
        copies u n ++ "\x7d\n")) := by
  have hfit := indentFits_of_dump_succ tbl X u n t hX
  have hn1 : n + 1 ≤ 9223372036854775807 := ((indentFits_iff u (n + 1)).mp hfit).1
  simp only [Expression.ExpressionDump,
    Repeat_natCast u n (indentFits_mono u n (n + 1) hfit (by omega)), wrapInt_succ n hn1,
    ExpressionDump_of_dump tbl X u _ t hX]
  congr 1
  simp [String.append_assoc]

theorem ExpressionDump_binary {α : Type} (tbl : Char → Bool) (op : BinaryOperator)
    (X Y : Expression α) (u : GoString) (n : Nat) (tx ty : GoString)
    (hX : dump tbl X u ((n : Int) + 1) = some tx)
    (hY : dump tbl Y u ((n : Int) + 1) = some ty) (w : GoString) :
    (Expression.BinaryExpression X op Y).ExpressionDump tbl w u n =
      .done (w ++ (copies u n ++ BinaryOperator.String op ++ " \x7b\n" ++ tx ++ ty ++
        copies u n ++ "\x7d\n")) := by
  have hfit := indentFits_of_dump_succ tbl X u n tx hX
  have hn1 : n + 1 ≤ 9223372036854775807 := ((indentFits_iff u (n + 1)).mp hfit).1
  simp only [Expression.ExpressionDump,
    Repeat_natCast u n (indentFits_mono u n (n + 1) hfit (by omega)), wrapInt_succ n hn1,
    ExpressionDump_of_dump tbl X u _ tx hX, ExpressionDump_of_dump tbl Y u _ ty hY]
  congr 1
  simp [String.append_assoc]

theorem ExpressionDump_collection {α : Type} (tbl : Char → Bool) (op : CollectionOperator)
    (sel : Selector) (nb : CollectionNameBinding) (E : Expression α) (u : GoString) (n : Nat)
    (te : GoString) (hE : dump tbl E u ((n : Int) + 2) = some te) (w : GoString) :
    (Expression.CollectionExpression op sel nb E).ExpressionDump tbl w u n =
      .done (w ++ (copies u n ++ CollectionOperator.String op ++ " \x7b\n" ++
        copies u (n + 1) ++ "Selector: " ++ sel.String ++ "\n" ++
        copies u (n + 1) ++ "NameBinding: " ++ nb.String ++ "\n" ++
        te ++ copies u n ++ "\x7d\n")) := by
  have hfit := indentFits_of_dump_add_two tbl E u n te hE
  have hn2 : n + 2 ≤ 9223372036854775807 := ((indentFits_iff u (n + 2)).mp hfit).1
  have hc : copies u (n + 1) = u ++ copies u n := by
    rw [copies_comm]; rfl
  simp only [Expression.ExpressionDump,
    Repeat_natCast u n (indentFits_mono u n (n + 2) hfit (by omega)), wrapInt_add_two n hn2,
    ExpressionDump_of_dump tbl E u _ te hE, hc]
  congr 1
  simp [String.append_assoc]

theorem dump_ne_nil {α : Type} (tbl : Char → Bool) (e : Expression α) (u : GoString)
    (l : Int) (t : GoString) (h : dump tbl e u l = some t) : e ≠ Expression.nil := by
  intro he
  subst he
  simp [dump, Expression.ExpressionDump] at h

/-! ## The dump of binary and collection expressions -/

/-- C9: when the dumps of `X` and `Y` at level `n + 1` write `tx` and `ty`, the dump of the
binary expression of `X`, `op`, `Y` at level `n` writes the operator line, then `tx`, then
`ty`, then the closing line; with Left and Right swapped it writes `ty` before `tx`. -/
theorem BinaryExpression_dump_order {α : Type} (tbl : Char → Bool) (X Y : Expression α)
    (op : BinaryOperator) (u : GoString) (n : Nat) (tx ty : GoString)
    (hX : dump tbl X u ((n : Int) + 1) = some tx)
    (hY : dump tbl Y u ((n : Int) + 1) = some ty) :
    X ≠ Expression.nil ∧ Y ≠ Expression.nil ∧
    (∀ w : GoString, (Expression.BinaryExpression X op Y).ExpressionDump tbl w u n =
      .done (w ++ (copies u n ++ BinaryOperator.String op ++ " \x7b\n" ++ tx ++ ty ++
        copies u n ++ "\x7d\n"))) ∧
    (∀ w : GoString, (Expression.BinaryExpression Y op X).ExpressionDump tbl w u n =
      .done (w ++ (copies u n ++ BinaryOperator.String op ++ " \x7b\n" ++ ty ++ tx ++
        copies u n ++ "\x7d\n"))) :=
  ⟨dump_ne_nil tbl X u _ tx hX, dump_ne_nil tbl Y u _ ty hY,
    fun w => ExpressionDump_binary tbl op X Y u n tx ty hX hY w,
    fun w => ExpressionDump_binary tbl op Y X u n ty tx hY hX w⟩

/-- The theorem `BinaryExpression_dump_order` at an And of an IsEmpty and an Equal match. -/
theorem BinaryExpression_dump_order_witness :
    (dump (fun _ => true)
        (Expression.MatchExpression ⟨SelectorTypeBexpr, ["a"]⟩ MatchIsEmpty
          (none : Option (MatchValue Unit))) "  " (((0 : Nat) : Int) + 1) =
        some "  Is Empty \x7b\n    Selector: a\n  \x7d\n" ∧
      dump (fun _ => true)
        (Expression.MatchExpression ⟨SelectorTypeBexpr, ["b"]⟩ MatchEqual
          (some (⟨bytesOf "1", ()⟩ : MatchValue Unit))) "  " (((0 : Nat) : Int) + 1) =
        some "  Equal \x7b\n    Selector: b\n    Value: \"1\"\n  \x7d\n") ∧
    (Expression.BinaryExpression
        (Expression.MatchExpression ⟨SelectorTypeBexpr, ["a"]⟩ MatchIsEmpty none) BinaryOpAnd
        (Expression.MatchExpression ⟨SelectorTypeBexpr, ["b"]⟩ MatchEqual
          (some (⟨bytesOf "1", ()⟩ : MatchValue Unit)))).ExpressionDump (fun _ => true) "" "  "
        ((0 : Nat) : Int) =
      .done ("" ++ (copies "  " 0 ++ BinaryOperator.String BinaryOpAnd ++ " \x7b\n" ++
        "  Is Empty \x7b\n    Selector: a\n  \x7d\n" ++
        "  Equal \x7b\n    Selector: b\n    Value: \"1\"\n  \x7d\n" ++
        copies "  " 0 ++ "\x7d\n")) :=
  ⟨⟨by decide, by decide⟩,
    (BinaryExpression_dump_order (fun _ => true)
      (Expression.MatchExpression ⟨SelectorTypeBexpr, ["a"]⟩ MatchIsEmpty none)
      (Expression.MatchExpression ⟨SelectorTypeBexpr, ["b"]⟩ MatchEqual
        (some (⟨bytesOf "1", ()⟩ : MatchValue Unit)))
      BinaryOpAnd "  " 0 _ _ (by decide) (by decide)).2.2.1 ""⟩

/-- C10: when the dump of the inner expression `E` at level `n + 2` writes `te`, the dump
of the collection expression at level `n` writes the operator line at level `n`, the
Selector and NameBinding lines at level `n + 1`, then `te`, then the closing line at level
`n`; the labels are the lowercase `any` and `all`; and the example of the specification,
whose inner block stands two levels deeper than the `any` line. -/
theorem CollectionExpression_dump_two_levels {α : Type} :
    (∀ (tbl : Char → Bool) (op : CollectionOperator) (sel : Selector)
      (nb : CollectionNameBinding) (E : Expression α) (u : GoString) (n : Nat)
      (te : GoString), dump tbl E u ((n : Int) + 2) = some te →
      E ≠ Expression.nil ∧
      ∀ w : GoString,
        (Expression.CollectionExpression op sel nb E).ExpressionDump tbl w u n =
          .done (w ++ (copies u n ++ CollectionOperator.String op ++ " \x7b\n" ++
            copies u (n + 1) ++ "Selector: " ++ sel.String ++ "\n" ++
            copies u (n + 1) ++ "NameBinding: " ++ nb.String ++ "\n" ++
            te ++ copies u n ++ "\x7d\n"))) ∧
    CollectionOperator.String CollectionOpAny = "any" ∧
    CollectionOperator.String CollectionOpAll = "all" ∧
    (∀ (tbl : Char → Bool) (d i : GoString) (cv : α),
      (Expression.CollectionExpression CollectionOpAny ⟨SelectorTypeBexpr, ["items"]⟩
        ⟨CollectionBindValue, d, i, "v"⟩
        (Expression.MatchExpression ⟨SelectorTypeBexpr, ["v"]⟩ MatchEqual
          (some ⟨bytesOf "x", cv⟩))).ExpressionDump tbl "" "  " 0 =
      .done ("any \x7b\n  Selector: items\n  NameBinding: Value ( v )\n" ++
        "    Equal \x7b\n      Selector: v\n      Value: \"x\"\n    \x7d\n" ++
        "\x7d\n")) := by
  have key : ∀ (tbl : Char → Bool) (op : CollectionOperator) (sel : Selector)
      (nb : CollectionNameBinding) (E : Expression α) (u : GoString) (n : Nat)
      (te : GoString), dump tbl E u ((n : Int) + 2) = some te →
      E ≠ Expression.nil ∧
      ∀ w : GoString,
        (Expression.CollectionExpression op sel nb E).ExpressionDump tbl w u n =
          .done (w ++ (copies u n ++ CollectionOperator.String op ++ " \x7b\n" ++
            copies u (n + 1) ++ "Selector: " ++ sel.String ++ "\n" ++
            copies u (n + 1) ++ "NameBinding: " ++ nb.String ++ "\n" ++
            te ++ copies u n ++ "\x7d\n")) := by
    intro tbl op sel nb E u n te hE
    exact ⟨dump_ne_nil tbl E u _ te hE,
      fun w => ExpressionDump_collection tbl op sel nb E u n te hE w⟩
  refine ⟨key, by decide, by decide, ?_⟩
  intro tbl d i cv
  have hinner := ExpressionDump_match_plain tbl "  " 2
    ⟨SelectorTypeBexpr, ["v"]⟩ MatchEqual (bytesOf "x") cv "" (by decide) (by decide)
    (by decide)
  have hd : dump tbl (Expression.MatchExpression ⟨SelectorTypeBexpr, ["v"]⟩ MatchEqual
      (some ⟨bytesOf "x", cv⟩)) "  " (((0 : Nat) : Int) + 2) =
      some "    Equal \x7b\n      Selector: v\n      Value: \"x\"\n    \x7d\n" := by
    unfold dump
    rw [show (((0 : Nat) : Int) + 2) = ((2 : Nat) : Int) from rfl, hinner]
    decide
  have h := (key tbl CollectionOpAny ⟨SelectorTypeBexpr, ["items"]⟩
    ⟨CollectionBindValue, d, i, "v"⟩ _ "  " 0 _ hd).2 ""
  have hb : CollectionNameBinding.String ⟨CollectionBindValue, d, i, "v"⟩ = "Value ( v )" := by
    simp [CollectionNameBinding.String, CollectionBindDefault, CollectionBindIndex,
      CollectionBindValue]
  rw [show ((0 : Nat) : Int) = 0 from rfl] at h
  rw [h, hb]
  decide

/-- The theorem `CollectionExpression_dump_two_levels` at an `all` over an IsNotEmpty
match. -/
theorem CollectionExpression_dump_two_levels_witness :
    dump (fun _ => true)
        (Expression.MatchExpression ⟨SelectorTypeBexpr, ["k"]⟩ MatchIsNotEmpty
          (none : Option (MatchValue Unit))) "\t" (((1 : Nat) : Int) + 2) =
        some "\t\t\tIs Not Empty \x7b\n\t\t\t\tSelector: k\n\t\t\t\x7d\n" ∧
    (Expression.CollectionExpression CollectionOpAll ⟨SelectorTypeJsonPointer, ["m", "n"]⟩
        ⟨CollectionBindIndexAndValue, "", "k", "v"⟩
        (Expression.MatchExpression ⟨SelectorTypeBexpr, ["k"]⟩ MatchIsNotEmpty
          (none : Option (MatchValue Unit)))).ExpressionDump (fun _ => true) "" "\t"
        ((1 : Nat) : Int) =
      .done ("" ++ (copies "\t" 1 ++ CollectionOperator.String CollectionOpAll ++ " \x7b\n" ++
        copies "\t" (1 + 1) ++ "Selector: " ++
        Selector.String ⟨SelectorTypeJsonPointer, ["m", "n"]⟩ ++ "\n" ++
        copies "\t" (1 + 1) ++ "NameBinding: " ++
        CollectionNameBinding.String ⟨CollectionBindIndexAndValue, "", "k", "v"⟩ ++ "\n" ++
        "\t\t\tIs Not Empty \x7b\n\t\t\t\tSelector: k\n\t\t\t\x7d\n" ++
        copies "\t" 1 ++ "\x7d\n")) :=
  ⟨by decide,
    ((CollectionExpression_dump_two_levels (α := Unit)).1 (fun _ => true) CollectionOpAll
      ⟨SelectorTypeJsonPointer, ["m", "n"]⟩ ⟨CollectionBindIndexAndValue, "", "k", "v"⟩
      (Expression.MatchExpression ⟨SelectorTypeBexpr, ["k"]⟩ MatchIsNotEmpty none) "\t" 1 _
      (by decide)).2 ""⟩

theorem ExpressionDump_match {α : Type} (tbl : Char → Bool) (sel : Selector)
    (op : MatchOperator) (value : Option (MatchValue α)) (u : GoString) (n : Nat)
    (h : wellFormed (Expression.MatchExpression sel op value) = true)
    (hfit : indentFits u (n + 1) = true) (w : GoString) :
    (Expression.MatchExpression sel op value).ExpressionDump tbl w u n =
      .done (w ++ (copies u n ++ MatchOperator.String op ++ " \x7b\n" ++
        (copies u (n + 1) ++ "Selector: " ++ sel.String ++
          (if printsValue op then "\n" ++ copies u (n + 1) ++ "Value: " ++
              Quote tbl ((value.map MatchValue.Raw).getD [])
            else "")) ++ "\n" ++ copies u n ++ "\x7d\n")) := by
  have hn1 : n + 1 ≤ 9223372036854775807 := ((indentFits_iff u (n + 1)).mp hfit).1
  have hr0 := Repeat_natCast u n (indentFits_mono u n (n + 1) hfit (by omega))
  have hr1 := Repeat_natCast_succ u n hfit
  have hw := wrapInt_succ n hn1
  simp only [wellFormed, ← printsValue_eq] at h
  cases value with
  | none =>
    have hp : printsValue op = false := by simpa using h
    simp [Expression.ExpressionDump, hr0, hr1, hw, hp, String.append_assoc]
  | some v =>
    by_cases hp : printsValue op = true
    · simp [Expression.ExpressionDump, hr0, hr1, hw, hp, String.append_assoc]
    · have hp2 : printsValue op = false := by simpa using hp
      simp [Expression.ExpressionDump, hr0, hr1, hw, hp2, String.append_assoc]

theorem closing_line_split : ("\x7d\n" : GoString) = "\x7d" ++ "\n" := by decide

theorem height_unary {α : Type} (op : UnaryOperator) (X : Expression α) (n : Nat) :
    n + height (Expression.UnaryExpression op X) = n + 1 + height X := by
  simp only [height]; omega

theorem height_collection {α : Type} (op : CollectionOperator) (sel : Selector)
    (nb : CollectionNameBinding) (E : Expression α) (n : Nat) :
    n + height (Expression.CollectionExpression op sel nb E) = n + 2 + height E := by
  simp only [height]; omega

theorem indentFits_binary {α : Type} (op : BinaryOperator) (X Y : Expression α)
    (u : GoString) (n : Nat)
    (h : indentFits u (n + height (Expression.BinaryExpression X op Y)) = true) :
    indentFits u (n + 1 + height X) = true ∧ indentFits u (n + 1 + height Y) = true := by
  simp only [height] at h
  exact ⟨indentFits_mono u _ _ h (by omega), indentFits_mono u _ _ h (by omega)⟩

theorem indentFits_match {α : Type} (sel : Selector) (op : MatchOperator)
    (value : Option (MatchValue α)) (u : GoString) (n : Nat)
    (h : indentFits u (n + height (Expression.MatchExpression sel op value)) = true) :
    indentFits u (n + 1) = true := h

/-- A well-formed tree is dumped to the end at the level one deeper. -/
theorem dump_isSome_succ {α : Type} (tbl : Char → Bool) (e : Expression α)
    (u : GoString) (n : Nat) (h : wellFormed e = true)
    (hfit : indentFits u (n + 1 + height e) = true) :
    ∃ t, dump tbl e u ((n : Int) + 1) = some t := by
  obtain ⟨t, ht⟩ := dump_isSome_of_wellFormed tbl e u (n + 1) h hfit
  exact ⟨t, by exact_mod_cast ht⟩

/-- A well-formed tree is dumped to the end at the level two deeper. -/
theorem dump_isSome_add_two {α : Type} (tbl : Char → Bool) (e : Expression α)
    (u : GoString) (n : Nat) (h : wellFormed e = true)
    (hfit : indentFits u (n + 2 + height e) = true) :
    ∃ t, dump tbl e u ((n : Int) + 2) = some t := by
  obtain ⟨t, ht⟩ := dump_isSome_of_wellFormed tbl e u (n + 2) h hfit
  exact ⟨t, by exact_mod_cast ht⟩

/-- The text of a completed dump ends with a newline. -/
theorem dump_ends_newline {α : Type} (tbl : Char → Bool) (e : Expression α) (u : GoString)
    (n : Nat) (h : wellFormed e = true) (hfit : indentFits u (n + height e) = true) :
    ∃ t, dump tbl e u n = some (t ++ "\n") := by
  cases e with
  | nil => simp [wellFormed] at h
  | UnaryExpression op X =>
    rw [height_unary] at hfit
    obtain ⟨t, ht⟩ := dump_isSome_succ tbl X u n (by simpa [wellFormed] using h) hfit
    refine ⟨copies u n ++ UnaryOperator.String op ++ " \x7b\n" ++ t ++ copies u n ++ "\x7d", ?_⟩
    unfold dump
    rw [ExpressionDump_unary tbl op X u n t ht ""]
    simp [closing_line_split, String.append_assoc]
  | BinaryExpression X op Y =>
    simp only [wellFormed, Bool.and_eq_true] at h
    obtain ⟨fx, fy⟩ := indentFits_binary op X Y u n hfit
    obtain ⟨tx, hx⟩ := dump_isSome_succ tbl X u n h.1 fx
    obtain ⟨ty, hy⟩ := dump_isSome_succ tbl Y u n h.2 fy
    refine ⟨copies u n ++ BinaryOperator.String op ++ " \x7b\n" ++ tx ++ ty ++ copies u n ++
      "\x7d", ?_⟩
    unfold dump
    rw [ExpressionDump_binary tbl op X Y u n tx ty hx hy ""]
    simp [closing_line_split, String.append_assoc]
  | MatchExpression sel op value =>
    refine ⟨copies u n ++ MatchOperator.String op ++ " \x7b\n" ++
        (copies u (n + 1) ++ "Selector: " ++ sel.String ++
          (if printsValue op then "\n" ++ copies u (n + 1) ++ "Value: " ++
              Quote tbl ((value.map MatchValue.Raw).getD [])
            else "")) ++ "\n" ++ copies u n ++ "\x7d", ?_⟩
    unfold dump
    rw [ExpressionDump_match tbl sel op value u n h (indentFits_match sel op value u n hfit) ""]
    simp [closing_line_split, String.append_assoc]
  | CollectionExpression op sel nb E =>
    rw [height_collection] at hfit
    obtain ⟨te, he⟩ := dump_isSome_add_two tbl E u n (by simpa [wellFormed] using h) hfit
    refine ⟨copies u n ++ CollectionOperator.String op ++ " \x7b\n" ++
        copies u (n + 1) ++ "Selector: " ++ sel.String ++ "\n" ++
        copies u (n + 1) ++ "NameBinding: " ++ nb.String ++ "\n" ++
        te ++ copies u n ++ "\x7d", ?_⟩
    unfold dump
    rw [ExpressionDump_collection tbl op sel nb E u n te he ""]
    simp [closing_line_split, String.append_assoc]

theorem ExpressionDump_forgetConverted {α : Type} (tbl : Char → Bool) (e : Expression α) :
    ∀ (w u : GoString) (l : Int),
      e.ExpressionDump tbl w u l = (forgetConverted e).ExpressionDump tbl w u l := by
  induction e with
  | nil => intro w u l; rfl
  | UnaryExpression op operand ih =>
    intro w u l
    simp only [Expression.ExpressionDump, forgetConverted, ih]
  | BinaryExpression left op right ihl ihr =>
    intro w u l
    simp only [Expression.ExpressionDump, forgetConverted, ihl, ihr]
  | MatchExpression sel op value =>
    intro w u l
    cases value <;>
      simp only [Expression.ExpressionDump, forgetConverted, Option.map_some',
        Option.map_none'] <;>
      cases Repeat u l <;> cases Repeat u (wrapInt (l + 1)) <;> rfl
  | CollectionExpression op sel binding inner ih =>
    intro w u l
    simp only [Expression.ExpressionDump, forgetConverted, ih]

/-! ## Brackets, accessors and determinism -/

/-- C11 fails at the largest level: with the empty indent and the level `MaxInt64`, the
dump of a well-formed negation writes its operator line and then panics, the level
`level+1` of the Operand being negative; no closing line is written. -/
theorem dump_bracketed_fails_largest_level :
    wellFormed (Expression.UnaryExpression UnaryOpNot
      (Expression.MatchExpression ⟨SelectorTypeBexpr, ["a"]⟩ MatchIsEmpty
        (none : Option (MatchValue Unit)))) = true ∧
    (0 : Int) ≤ 9223372036854775807 ∧
    (Expression.UnaryExpression UnaryOpNot
      (Expression.MatchExpression ⟨SelectorTypeBexpr, ["a"]⟩ MatchIsEmpty
        (none : Option (MatchValue Unit)))).ExpressionDump (fun _ => true) "" ""
        9223372036854775807 = .fault "Not \x7b\n" ∧
    dump (fun _ => true) (Expression.UnaryExpression UnaryOpNot
      (Expression.MatchExpression ⟨SelectorTypeBexpr, ["a"]⟩ MatchIsEmpty
        (none : Option (MatchValue Unit)))) "" 9223372036854775807 = none := by
  decide

/-- C11, as the code has it: the dump of a well-formed tree at a level `n` whose deepest
indentation can be built (`n + h` and `len(u) * (n + h)` at most the largest `int`, `h`
the height of the tree) begins with the line of `n` indents, the operator label and an
opening brace, and ends with the line of `n` indents and a closing brace, the text in
between ending a line; for a unary node the text between the two lines is the dump of the
Operand at level `n + 1`. -/
theorem dump_bracketed {α : Type} (tbl : Char → Bool) (e : Expression α) (u : GoString)
    (n : Nat) (h : wellFormed e = true) (hfit : indentFits u (n + height e) = true) :
    (∃ mid : GoString, ∀ w : GoString, e.ExpressionDump tbl w u n =
      .done (w ++ (copies u n ++ label e ++ " \x7b\n" ++ (mid ++ "\n") ++
        copies u n ++ "\x7d\n"))) ∧
    (∀ (op : UnaryOperator) (X : Expression α), e = Expression.UnaryExpression op X →
      ∃ t : GoString, dump tbl X u ((n : Int) + 1) = some t ∧
        ∀ w : GoString, e.ExpressionDump tbl w u n =
          .done (w ++ (copies u n ++ UnaryOperator.String op ++ " \x7b\n" ++ t ++
            copies u n ++ "\x7d\n"))) := by
  constructor
  · cases e with
    | nil => simp [wellFormed] at h
    | UnaryExpression op X =>
      have hX : wellFormed X = true := by simpa [wellFormed] using h
      rw [height_unary] at hfit
      obtain ⟨t, ht⟩ := dump_ends_newline tbl X u (n + 1) hX hfit
      exact ⟨t, fun w => ExpressionDump_unary tbl op X u n _ (by exact_mod_cast ht) w⟩
    | BinaryExpression X op Y =>
      simp only [wellFormed, Bool.and_eq_true] at h
      obtain ⟨fx, fy⟩ := indentFits_binary op X Y u n hfit
      obtain ⟨tx, hx⟩ := dump_isSome_succ tbl X u n h.1 fx
      obtain ⟨ty, hy⟩ := dump_ends_newline tbl Y u (n + 1) h.2 fy
      refine ⟨tx ++ ty, fun w => ?_⟩
      rw [ExpressionDump_binary tbl op X Y u n tx _ hx (by exact_mod_cast hy) w]
      simp [label, String.append_assoc]
    | MatchExpression sel op value =>
      refine ⟨copies u (n + 1) ++ "Selector: " ++ sel.String ++
        (if printsValue op then "\n" ++ copies u (n + 1) ++ "Value: " ++
            Quote tbl ((value.map MatchValue.Raw).getD [])
          else ""), fun w => ?_⟩
      rw [ExpressionDump_match tbl sel op value u n h (indentFits_match sel op value u n hfit) w]
      simp [label, String.append_assoc]
    | CollectionExpression op sel nb E =>
      have hE : wellFormed E = true := by simpa [wellFormed] using h
      rw [height_collection] at hfit
      obtain ⟨te, he⟩ := dump_ends_newline tbl E u (n + 2) hE hfit
      refine ⟨copies u (n + 1) ++ "Selector: " ++ sel.String ++ "\n" ++
        copies u (n + 1) ++ "NameBinding: " ++ nb.String ++ "\n" ++ te, fun w => ?_⟩
      rw [ExpressionDump_collection tbl op sel nb E u n _ (by exact_mod_cast he) w]
      simp [label, String.append_assoc]
  · intro op X he
    subst he
    have hX : wellFormed X = true := by simpa [wellFormed] using h
    rw [height_unary] at hfit
    obtain ⟨t, ht⟩ := dump_isSome_succ tbl X u n hX hfit
    exact ⟨t, ht, fun w => ExpressionDump_unary tbl op X u n t ht w⟩

/-- The theorem `dump_bracketed` at a negated IsEmpty match. -/
theorem dump_bracketed_witness :
    (wellFormed (Expression.UnaryExpression UnaryOpNot
      (Expression.MatchExpression ⟨SelectorTypeBexpr, ["a"]⟩ MatchIsEmpty
        (none : Option (MatchValue Unit)))) = true ∧
      indentFits "  " (0 + height (Expression.UnaryExpression UnaryOpNot
        (Expression.MatchExpression ⟨SelectorTypeBexpr, ["a"]⟩ MatchIsEmpty
          (none : Option (MatchValue Unit))))) = true) ∧
    ∃ t : GoString,
      dump (fun _ => true) (Expression.MatchExpression ⟨SelectorTypeBexpr, ["a"]⟩ MatchIsEmpty
        (none : Option (MatchValue Unit))) "  " (((0 : Nat) : Int) + 1) = some t ∧
      ∀ w : GoString,
        (Expression.UnaryExpression UnaryOpNot
          (Expression.MatchExpression ⟨SelectorTypeBexpr, ["a"]⟩ MatchIsEmpty
            (none : Option (MatchValue Unit)))).ExpressionDump (fun _ => true) w "  "
            ((0 : Nat) : Int) =
          .done (w ++ (copies "  " 0 ++ UnaryOperator.String UnaryOpNot ++ " \x7b\n" ++ t ++
            copies "  " 0 ++ "\x7d\n")) :=
  ⟨⟨by decide, by decide⟩,
    (dump_bracketed (fun _ => true) (Expression.UnaryExpression UnaryOpNot
      (Expression.MatchExpression ⟨SelectorTypeBexpr, ["a"]⟩ MatchIsEmpty
        (none : Option (MatchValue Unit)))) "  " 0 (by decide) (by decide)).2 _ _ rfl⟩

/-- C12: after `SetSelector(s)` the call `GetSelector()` returns `s`; `SetSelector` leaves
Operator, NameBinding and the inner Expression as they were, and `GetSelector` returns the
Selector field and leaves the node as it was. -/
theorem SetSelector_GetSelector {α : Type} (c : CollectionExpression α) (s : Selector) :
    (GetSelector (SetSelector c s)).1 = s ∧
    (SetSelector c s).Operator = c.Operator ∧
    (SetSelector c s).NameBinding = c.NameBinding ∧
    (SetSelector c s).Expression = c.Expression ∧
    (GetSelector c).1 = c.Selector ∧
    (GetSelector c).2 = c ∧
    (SetSelector c s).toExpression =
      Expression.CollectionExpression c.Operator s c.NameBinding c.Expression :=
  ⟨rfl, rfl, rfl, rfl, rfl, rfl, rfl⟩

/-- C13: two trees that are equal once their Converted fields are forgotten have the same
dump, on every sink, with every indent and at every level. -/
theorem ExpressionDump_ignores_Converted {α β : Type} (tbl : Char → Bool)
    (e1 : Expression α) (e2 : Expression β) (w u : GoString) (l : Int)
    (h : forgetConverted e1 = forgetConverted e2) :
    e1.ExpressionDump tbl w u l = e2.ExpressionDump tbl w u l := by
  rw [ExpressionDump_forgetConverted tbl e1, ExpressionDump_forgetConverted tbl e2, h]

/-- The theorem `ExpressionDump_ignores_Converted` at two trees whose Converted fields are
a number and a text. -/
theorem ExpressionDump_ignores_Converted_witness :
    forgetConverted (Expression.UnaryExpression UnaryOpNot
        (Expression.MatchExpression ⟨SelectorTypeBexpr, ["a"]⟩ MatchEqual
          (some (⟨bytesOf "1", (1 : Nat)⟩ : MatchValue Nat)))) =
      forgetConverted (Expression.UnaryExpression UnaryOpNot
        (Expression.MatchExpression ⟨SelectorTypeBexpr, ["a"]⟩ MatchEqual
          (some (⟨bytesOf "1", "one"⟩ : MatchValue String)))) ∧
    (Expression.UnaryExpression UnaryOpNot
        (Expression.MatchExpression ⟨SelectorTypeBexpr, ["a"]⟩ MatchEqual
          (some (⟨bytesOf "1", (1 : Nat)⟩ : MatchValue Nat)))).ExpressionDump (fun _ => true) ""
          "  " 0 =
      (Expression.UnaryExpression UnaryOpNot
        (Expression.MatchExpression ⟨SelectorTypeBexpr, ["a"]⟩ MatchEqual
          (some (⟨bytesOf "1", "one"⟩ : MatchValue String)))).ExpressionDump (fun _ => true) ""
          "  " 0 :=
  ⟨rfl, ExpressionDump_ignores_Converted (fun _ => true) _ _ "" "  " 0 rfl⟩

/-- C14: LesserOrEqualThan and LesserThan both have the label `Lesser Than`; on the other
eleven declared operators the label determines the operator; the twelve declared
operators have eleven distinct labels. -/
theorem MatchOperator_String_collision :
    MatchOperator.String MatchLesserOrEqualThan = "Lesser Than" ∧
    MatchOperator.String MatchLesserThan = "Lesser Than" ∧
    MatchLesserOrEqualThan ≠ MatchLesserThan ∧
    (∀ a ∈ [MatchEqual, MatchNotEqual, MatchIn, MatchNotIn, MatchIsEmpty, MatchIsNotEmpty,
        MatchMatches, MatchNotMatches, MatchGreaterOrEqualThan, MatchGreaterThan,
        MatchLesserThan],
      ∀ b ∈ [MatchEqual, MatchNotEqual, MatchIn, MatchNotIn, MatchIsEmpty, MatchIsNotEmpty,
        MatchMatches, MatchNotMatches, MatchGreaterOrEqualThan, MatchGreaterThan,
        MatchLesserThan],
      MatchOperator.String a = MatchOperator.String b → a = b) ∧
    ([MatchEqual, MatchNotEqual, MatchIn, MatchNotIn, MatchIsEmpty, MatchIsNotEmpty,
        MatchMatches, MatchNotMatches, MatchGreaterOrEqualThan, MatchGreaterThan,
        MatchLesserOrEqualThan, MatchLesserThan].map MatchOperator.String).dedup.length = 11 := by
  refine ⟨by decide, by decide, by decide, by decide, by decide⟩

/-- The theorem `MatchOperator_String_collision` at GreaterThan and GreaterThan. -/
theorem MatchOperator_String_collision_witness :
    (MatchGreaterThan ∈ [MatchEqual, MatchNotEqual, MatchIn, MatchNotIn, MatchIsEmpty,
        MatchIsNotEmpty, MatchMatches, MatchNotMatches, MatchGreaterOrEqualThan,
        MatchGreaterThan, MatchLesserThan] ∧
      MatchOperator.String MatchGreaterThan = MatchOperator.String MatchGreaterThan) ∧
    MatchGreaterThan = MatchGreaterThan :=
  ⟨⟨by decide, rfl⟩,
    MatchOperator_String_collision.2.2.2.1 MatchGreaterThan (by decide) MatchGreaterThan
      (by decide) rfl⟩

/-- C15: two name bindings with the same Mode that agree on the fields the Mode selects
have the same description, whatever their other fields, and the dumps of two collection
nodes that differ only in these bindings are the same. -/
theorem CollectionNameBinding_String_unused_fields {α : Type} (b1 b2 : CollectionNameBinding)
    (hmode : b1.Mode = b2.Mode)
    (hd : b1.Mode = CollectionBindDefault → b1.Default = b2.Default)
    (hi : b1.Mode = CollectionBindIndex → b1.Index = b2.Index)
    (hv : b1.Mode = CollectionBindValue → b1.Value = b2.Value)
    (hiv : b1.Mode = CollectionBindIndexAndValue →
      b1.Index = b2.Index ∧ b1.Value = b2.Value) :
    b1.String = b2.String ∧
    ∀ (tbl : Char → Bool) (op : CollectionOperator) (sel : Selector) (E : Expression α)
      (w u : GoString) (l : Int),
      (Expression.CollectionExpression op sel b1 E).ExpressionDump tbl w u l =
        (Expression.CollectionExpression op sel b2 E).ExpressionDump tbl w u l := by
  have hs : b1.String = b2.String := by
    unfold CollectionNameBinding.String
    rw [← hmode]
    by_cases h0 : b1.Mode = CollectionBindDefault
    · rw [if_pos h0, if_pos h0, hd h0]
    · rw [if_neg h0, if_neg h0]
      by_cases h1 : b1.Mode = CollectionBindIndex
      · rw [if_pos h1, if_pos h1, hi h1]
      · rw [if_neg h1, if_neg h1]
        by_cases h2 : b1.Mode = CollectionBindValue
        · rw [if_pos h2, if_pos h2, hv h2]
        · rw [if_neg h2, if_neg h2]
          by_cases h3 : b1.Mode = CollectionBindIndexAndValue
          · rw [if_pos h3, if_pos h3, (hiv h3).1, (hiv h3).2]
          · rw [if_neg h3, if_neg h3]
  refine ⟨hs, ?_⟩
  intro tbl op sel E w u l
  simp only [Expression.ExpressionDump, hs]

/-- The theorem `CollectionNameBinding_String_unused_fields` at two bindings of Mode Value
that differ in Default and Index. -/
theorem CollectionNameBinding_String_unused_fields_witness :
    CollectionNameBinding.String ⟨CollectionBindValue, "d", "i", "v"⟩ =
      CollectionNameBinding.String ⟨CollectionBindValue, "", "k", "v"⟩ ∧
    (Expression.CollectionExpression CollectionOpAny ⟨SelectorTypeBexpr, ["xs"]⟩
        ⟨CollectionBindValue, "d", "i", "v"⟩
        (Expression.MatchExpression ⟨SelectorTypeBexpr, ["v"]⟩ MatchIsEmpty
          (none : Option (MatchValue Unit)))).ExpressionDump (fun _ => true) "" "  " 0 =
      (Expression.CollectionExpression CollectionOpAny ⟨SelectorTypeBexpr, ["xs"]⟩
        ⟨CollectionBindValue, "", "k", "v"⟩
        (Expression.MatchExpression ⟨SelectorTypeBexpr, ["v"]⟩ MatchIsEmpty
          (none : Option (MatchValue Unit)))).ExpressionDump (fun _ => true) "" "  " 0 :=
  have h := CollectionNameBinding_String_unused_fields (α := Unit)
    ⟨CollectionBindValue, "d", "i", "v"⟩ ⟨CollectionBindValue, "", "k", "v"⟩ rfl
    (by decide) (by decide) (by decide) (by decide)
  ⟨h.1, h.2 (fun _ => true) CollectionOpAny ⟨SelectorTypeBexpr, ["xs"]⟩ _ "" "  " 0⟩
/-! ## Faults of the dump -/

/-- C16 fails near the largest level: with the empty indent and the level `MaxInt64 - 1`,
the dump of a collection node over an IsEmpty match, a tree that is not malformed, writes
its three lines and then panics, the level `level+2` of the inner expression being
negative. -/
theorem ExpressionDump_faults_not_malformed :
    Expression.CollectionExpression CollectionOpAny ⟨SelectorTypeBexpr, ["items"]⟩
        ⟨CollectionBindValue, "", "", "v"⟩
        (Expression.MatchExpression ⟨SelectorTypeBexpr, ["v"]⟩ MatchIsEmpty
          (none : Option (MatchValue Unit))) ≠ Expression.nil ∧
    malformed (Expression.CollectionExpression CollectionOpAny ⟨SelectorTypeBexpr, ["items"]⟩
        ⟨CollectionBindValue, "", "", "v"⟩
        (Expression.MatchExpression ⟨SelectorTypeBexpr, ["v"]⟩ MatchIsEmpty
          (none : Option (MatchValue Unit)))) = false ∧
    (0 : Int) ≤ 9223372036854775806 ∧
    (Expression.CollectionExpression CollectionOpAny ⟨SelectorTypeBexpr, ["items"]⟩
        ⟨CollectionBindValue, "", "", "v"⟩
        (Expression.MatchExpression ⟨SelectorTypeBexpr, ["v"]⟩ MatchIsEmpty
          (none : Option (MatchValue Unit)))).ExpressionDump (fun _ => true) "" ""
        9223372036854775806 =
      .fault "any \x7b\nSelector: items\nNameBinding: Value ( v )\n" := by
  refine ⟨by simp, by decide, by decide, by decide⟩

/-- C16, as the code has it: at a level `n` that is not negative, the dump of a tree with
a non-nil root panics if and only if the tree is malformed (some node is a unary node with
a nil Operand, a binary node with a nil Left or Right, a collection node with a nil
Expression, or a match node with a nil Value under one of the eight value-printing
operators) or an indentation cannot be built: `n + h` or `len(u) * (n + h)` is above the
largest `int`, `h` being the height of the tree. A match node with any other operator and
a nil Value, whatever its selector, does not panic at a level whose indentation of `n + 1`
units can be built. -/
theorem ExpressionDump_faults_iff_malformed {α : Type} (tbl : Char → Bool)
    (e : Expression α) (w u : GoString) (n : Nat) (hroot : e ≠ Expression.nil) :
    ((e.ExpressionDump tbl w u n).faulted = true ↔
      (malformed e = true ∨ indentFits u (n + height e) = false)) ∧
    (indentFits u (n + height e) = true →
      ((e.ExpressionDump tbl w u n).faulted = true ↔ malformed e = true)) ∧
    (∀ (sel : Selector) (op : MatchOperator), op ∉ valueOperators →
      indentFits u (n + 1) = true →
      ((Expression.MatchExpression sel op (none : Option (MatchValue α))).ExpressionDump
        tbl w u n).faulted = false) := by
  have hnil : e.isNil = false := by
    cases e with
    | nil => exact absurd rfl hroot
    | _ => rfl
  refine ⟨?_, ?_, ?_⟩
  · rw [ExpressionDump_faulted tbl e w u n, wellFormed_iff_not_malformed, hnil]
    cases malformed e <;> cases indentFits u (n + height e) <;> simp
  · intro hfit
    rw [ExpressionDump_faulted tbl e w u n, wellFormed_iff_not_malformed, hnil, hfit]
    cases malformed e <;> simp
  · intro sel op hop hfit
    rw [ExpressionDump_faulted tbl _ w u n]
    have hh : indentFits u
        (n + height (Expression.MatchExpression sel op (none : Option (MatchValue α)))) =
        true := hfit
    rw [hh]
    simp [wellFormed, hop]

/-- The theorem `ExpressionDump_faults_iff_malformed` at a conjunction whose Right is a
negation of nil. -/
theorem ExpressionDump_faults_iff_malformed_witness :
    Expression.BinaryExpression
        (Expression.MatchExpression ⟨SelectorTypeUnknown, []⟩ 99
          (none : Option (MatchValue Unit)))
        BinaryOpAnd (Expression.UnaryExpression 7 Expression.nil) ≠ Expression.nil ∧
    (((Expression.BinaryExpression
        (Expression.MatchExpression ⟨SelectorTypeUnknown, []⟩ 99
          (none : Option (MatchValue Unit)))
        BinaryOpAnd (Expression.UnaryExpression 7 Expression.nil)).ExpressionDump
        (fun _ => true) "" "  " ((0 : Nat) : Int)).faulted = true ↔
      (malformed (Expression.BinaryExpression
        (Expression.MatchExpression ⟨SelectorTypeUnknown, []⟩ 99
          (none : Option (MatchValue Unit)))
        BinaryOpAnd (Expression.UnaryExpression 7 Expression.nil)) = true ∨
      indentFits "  " (0 + height (Expression.BinaryExpression
        (Expression.MatchExpression ⟨SelectorTypeUnknown, []⟩ 99
          (none : Option (MatchValue Unit)))
        BinaryOpAnd (Expression.UnaryExpression 7 Expression.nil))) = false)) :=
  ⟨by simp,
    (ExpressionDump_faults_iff_malformed (fun _ => true) _ "" "  " 0 (by simp)).1⟩

/-- C17 fails: the dump of a negation of nil panics with the line `Not` and the opening
brace in the sink, and the dump of a conjunction with a nil Right panics with the operator
line and the whole block of Left in the sink. -/
theorem ExpressionDump_fault_after_partial_output :
    (Expression.UnaryExpression UnaryOpNot
        (Expression.nil : Expression Unit)).ExpressionDump (fun _ => true) "" "  " 0 =
      .fault "Not \x7b\n" ∧
    (Expression.BinaryExpression
        (Expression.MatchExpression ⟨SelectorTypeBexpr, ["a"]⟩ MatchIsEmpty
          (none : Option (MatchValue Unit)))
        BinaryOpAnd Expression.nil).ExpressionDump (fun _ => true) "" "  " 0 =
      .fault "And \x7b\n  Is Empty \x7b\n    Selector: a\n  \x7d\n" ∧
    ("Not \x7b\n" : GoString) ≠ "" := by
  decide

/-- C17, as the code has it: the dump of a node with a nil required child panics when the
traversal reaches that child, and the sink then holds what was written before: the
operator line of the node, for a collection node also its Selector and NameBinding lines,
and for a nil Right also the whole block of Left; no closing line is written. The operator
line is written at a level `n` whose indentation can be built (`n` and `len(u) * n` at
most the largest `int`), which a completed dump of Left implies; at a level whose
indentation cannot be built the dump panics before anything is written. -/
theorem ExpressionDump_fault_at_nil_child {α : Type} (tbl : Char → Bool) (w u : GoString)
    (n : Nat) :
    (indentFits u n = true → ∀ op : UnaryOperator,
      (Expression.UnaryExpression op (Expression.nil : Expression α)).ExpressionDump
          tbl w u n =
        .fault (w ++ (copies u n ++ UnaryOperator.String op ++ " \x7b\n"))) ∧
    (indentFits u n = true → ∀ (op : BinaryOperator) (Y : Expression α),
      (Expression.BinaryExpression Expression.nil op Y).ExpressionDump tbl w u n =
        .fault (w ++ (copies u n ++ BinaryOperator.String op ++ " \x7b\n"))) ∧
    (∀ (op : BinaryOperator) (X : Expression α) (tx : GoString),
      dump tbl X u ((n : Int) + 1) = some tx →
      (Expression.BinaryExpression X op Expression.nil).ExpressionDump tbl w u n =
        .fault (w ++ (copies u n ++ BinaryOperator.String op ++ " \x7b\n" ++ tx))) ∧
    (indentFits u n = true →
      ∀ (op : CollectionOperator) (sel : Selector) (nb : CollectionNameBinding),
      (Expression.CollectionExpression op sel nb
          (Expression.nil : Expression α)).ExpressionDump tbl w u n =
        .fault (w ++ (copies u n ++ CollectionOperator.String op ++ " \x7b\n" ++
          copies u (n + 1) ++ "Selector: " ++ sel.String ++ "\n" ++
          copies u (n + 1) ++ "NameBinding: " ++ nb.String ++ "\n"))) ∧
    (indentFits u n = false →
      ∀ e : Expression α, e.ExpressionDump tbl w u n = .fault w) := by
  refine ⟨?_, ?_, ?_, ?_, fun hfit e => ExpressionDump_unfit tbl e w u n hfit⟩
  · intro hfit op
    simp [Expression.ExpressionDump, Repeat_natCast u n hfit]
  · intro hfit op Y
    simp [Expression.ExpressionDump, Repeat_natCast u n hfit]
  · intro op X tx hX
    have hfit := indentFits_of_dump_succ tbl X u n tx hX
    have hn1 : n + 1 ≤ 9223372036854775807 := ((indentFits_iff u (n + 1)).mp hfit).1
    simp only [Expression.ExpressionDump,
      Repeat_natCast u n (indentFits_mono u n (n + 1) hfit (by omega)), wrapInt_succ n hn1,
      ExpressionDump_of_dump tbl X u _ tx hX]
    congr 1
    simp [String.append_assoc]
  · intro hfit op sel nb
    have hc : copies u (n + 1) = u ++ copies u n := by
      rw [copies_comm]; rfl
    simp only [Expression.ExpressionDump, Repeat_natCast u n hfit, hc]
    congr 1
    simp [String.append_assoc]

/-- The theorem `ExpressionDump_fault_at_nil_child` at a disjunction with a nil Right. -/
theorem ExpressionDump_fault_at_nil_child_witness :
    dump (fun _ => true) (Expression.MatchExpression ⟨SelectorTypeBexpr, ["a"]⟩ MatchEqual
        (some (⟨bytesOf "1", ()⟩ : MatchValue Unit))) "\t" (((1 : Nat) : Int) + 1) =
      some "\t\tEqual \x7b\n\t\t\tSelector: a\n\t\t\tValue: \"1\"\n\t\t\x7d\n" ∧
    (Expression.BinaryExpression
        (Expression.MatchExpression ⟨SelectorTypeBexpr, ["a"]⟩ MatchEqual
          (some (⟨bytesOf "1", ()⟩ : MatchValue Unit)))
        BinaryOpOr Expression.nil).ExpressionDump (fun _ => true) "x" "\t" ((1 : Nat) : Int) =
      .fault ("x" ++ (copies "\t" 1 ++ BinaryOperator.String BinaryOpOr ++ " \x7b\n" ++
        "\t\tEqual \x7b\n\t\t\tSelector: a\n\t\t\tValue: \"1\"\n\t\t\x7d\n")) :=
  ⟨by decide,
    (ExpressionDump_fault_at_nil_child (fun _ => true) "x" "\t" 1).2.2.1 BinaryOpOr _ _
      (by decide)⟩

/-- C20: at a negative level `strings.Repeat` panics, and the dump of every node panics
with the sink as it was before the call, whatever the indent and the tree. -/
theorem ExpressionDump_negative_level {α : Type} (tbl : Char → Bool) (e : Expression α)
    (w u : GoString) (l : Int) (hl : l < 0) :
    Repeat u l = none ∧ e.ExpressionDump tbl w u l = .fault w :=
  ⟨Repeat_neg u l hl, ExpressionDump_neg tbl e w u l hl⟩

/-- The theorem `ExpressionDump_negative_level` at a well-formed tree, the empty indent and
level -1. -/
theorem ExpressionDump_negative_level_witness :
    (-1 : Int) < 0 ∧
    wellFormed (Expression.UnaryExpression UnaryOpNot
        (Expression.MatchExpression ⟨SelectorTypeBexpr, ["a"]⟩ MatchEqual
          (some (⟨bytesOf "1", ()⟩ : MatchValue Unit)))) = true ∧
    (Expression.UnaryExpression UnaryOpNot
        (Expression.MatchExpression ⟨SelectorTypeBexpr, ["a"]⟩ MatchEqual
          (some (⟨bytesOf "1", ()⟩ : MatchValue Unit)))).ExpressionDump (fun _ => true) "out" ""
          (-1) = .fault "out" :=
  ⟨by decide, by decide,
    (ExpressionDump_negative_level (fun _ => true) _ "out" "" (-1) (by decide)).2⟩

/-! ## Quoting -/

theorem appendEscapedRune_printable (tbl : Char → Bool) (buf : GoString) (c : Char)
    (h : IsPrint tbl c = true ∧ c ≠ dquote ∧ c ≠ backslash) :
    appendEscapedRune tbl buf c = buf.push c := by
  obtain ⟨h1, h2, h3⟩ := h
  unfold appendEscapedRune
  simp [h1, h2, h3]

theorem appendEscapedRune_length_escaped (tbl : Char → Bool) (buf : GoString) (c : Char)
    (h : ¬ (IsPrint tbl c = true ∧ c ≠ dquote ∧ c ≠ backslash)) :
    buf.length + 2 ≤ (appendEscapedRune tbl buf c).length := by
  unfold appendEscapedRune
  by_cases h1 : c = dquote ∨ c = backslash
  · rw [if_pos h1]
    simp only [String.length_push]
    omega
  · rw [if_neg h1]
    by_cases h2 : IsPrint tbl c = true
    · exact absurd ⟨h2, fun hq => h1 (Or.inl hq), fun hb => h1 (Or.inr hb)⟩ h
    · rw [if_neg h2]
      by_cases k0 : c.toNat = 0x07
      · rw [if_pos k0]
        simp only [List.foldl_cons, List.foldl_nil, String.length_push]
        omega
      · rw [if_neg k0]
        by_cases k1 : c.toNat = 0x08
        · rw [if_pos k1]
          simp only [List.foldl_cons, List.foldl_nil, String.length_push]
          omega
        · rw [if_neg k1]
          by_cases k2 : c.toNat = 0x0C
          · rw [if_pos k2]
            simp only [List.foldl_cons, List.foldl_nil, String.length_push]
            omega
          · rw [if_neg k2]
            by_cases k3 : c.toNat = 0x0A
            · rw [if_pos k3]
              simp only [List.foldl_cons, List.foldl_nil, String.length_push]
              omega
            · rw [if_neg k3]
              by_cases k4 : c.toNat = 0x0D
              · rw [if_pos k4]
                simp only [List.foldl_cons, List.foldl_nil, String.length_push]
                omega
              · rw [if_neg k4]
                by_cases k5 : c.toNat = 0x09
                · rw [if_pos k5]
                  simp only [List.foldl_cons, List.foldl_nil, String.length_push]
                  omega
                · rw [if_neg k5]
                  by_cases k6 : c.toNat = 0x0B
                  · rw [if_pos k6]
                    simp only [List.foldl_cons, List.foldl_nil, String.length_push]
                    omega
                  · rw [if_neg k6]
                    by_cases k7 : c.toNat < 0x20 ∨ c.toNat = 0x7F
                    · rw [if_pos k7]
                      simp only [List.foldl_cons, List.foldl_nil, String.length_push]
                      omega
                    · rw [if_neg k7]
                      by_cases k8 : c.toNat < 0x10000
                      · rw [if_pos k8]
                        simp only [List.foldl_cons, List.foldl_nil, String.length_push]
                        omega
                      · rw [if_neg k8]
                        simp only [List.foldl_cons, List.foldl_nil, String.length_push]
                        omega

theorem appendEscapedRune_length_ge (tbl : Char → Bool) (buf : GoString) (c : Char) :
    buf.length + 1 ≤ (appendEscapedRune tbl buf c).length := by
  by_cases h : IsPrint tbl c = true ∧ c ≠ dquote ∧ c ≠ backslash
  · rw [appendEscapedRune_printable tbl buf c h, String.length_push]
  · have := appendEscapedRune_length_escaped tbl buf c h
    omega

theorem foldl_appendEscapedRune_length_ge (tbl : Char → Bool) (cs : List Char) :
    ∀ buf : GoString, buf.length + cs.length ≤ (cs.foldl (appendEscapedRune tbl) buf).length := by
  induction cs with
  | nil => intro buf; simp
  | cons c rest ih =>
    intro buf
    have h1 := appendEscapedRune_length_ge tbl buf c
    have h2 := ih (appendEscapedRune tbl buf c)
    simp only [List.foldl_cons, List.length_cons]
    omega

theorem foldl_appendEscapedRune_length_escaped (tbl : Char → Bool) (cs : List Char) :
    ∀ buf : GoString,
      (∃ c ∈ cs, ¬ (IsPrint tbl c = true ∧ c ≠ dquote ∧ c ≠ backslash)) →
      buf.length + cs.length + 1 ≤ (cs.foldl (appendEscapedRune tbl) buf).length := by
  induction cs with
  | nil => intro buf h; obtain ⟨c, hc, _⟩ := h; exact absurd hc (List.not_mem_nil c)
  | cons c rest ih =>
    intro buf h
    simp only [List.foldl_cons, List.length_cons]
    by_cases hc : IsPrint tbl c = true ∧ c ≠ dquote ∧ c ≠ backslash
    · obtain ⟨d, hd, hdn⟩ := h
      have hrest : ∃ d ∈ rest, ¬ (IsPrint tbl d = true ∧ d ≠ dquote ∧ d ≠ backslash) := by
        rcases List.mem_cons.mp hd with hdc | hdr
        · subst hdc; exact absurd hc hdn
        · exact ⟨d, hdr, hdn⟩
      have h1 := appendEscapedRune_length_ge tbl buf c
      have h2 := ih (appendEscapedRune tbl buf c) hrest
      omega
    · have h1 := appendEscapedRune_length_escaped tbl buf c hc
      have h2 := foldl_appendEscapedRune_length_ge tbl rest (appendEscapedRune tbl buf c)
      omega

/-- On ASCII bytes the loop of `%q` passes every byte, as a character, to
`appendEscapedRune`. -/
theorem quoteLoop_ascii (tbl : Char → Bool) (s : GoBytes) :
    ∀ buf : GoString, (∀ b ∈ s, b.val < 0x80) →
      quoteLoop tbl 0 s buf =
        (s.map fun b => Char.ofNat b.val).foldl (appendEscapedRune tbl) buf := by
  induction s with
  | nil => intro buf _; simp [quoteLoop]
  | cons b rest ih =>
    intro buf h
    have hlt : b.val < 0x80 := h b (List.mem_cons_self _ _)
    have hne : ¬ (b.val = RuneError) := by
      unfold RuneError; omega
    have step : quoteLoop tbl 0 (b :: rest) buf =
        quoteLoop tbl 0 rest (appendEscapedRune tbl buf (Char.ofNat b.val)) := by
      simp [quoteLoop, hlt, hne]
    rw [step, ih _ (fun c hc => h c (List.mem_cons_of_mem _ hc))]
    simp

theorem asciiText_length (s : GoBytes) : (asciiText s).length = s.length := by
  simp [asciiText, String.length]

/-- The verb `%q` leaves a text of ASCII bytes as it is between the quotes exactly when
every byte of it is printable and neither a double quote nor a backslash. -/
theorem Quote_ascii_verbatim_iff (tbl : Char → Bool) (r : GoBytes)
    (hascii : ∀ b ∈ r, b.val < 0x80) :
    Quote tbl r = "\"" ++ asciiText r ++ "\"" ↔ plainASCII r = true := by
  constructor
  · intro heq
    by_contra hne
    have hex : ∃ b ∈ r, ¬ (0x20 ≤ b.val ∧ b.val ≤ 0x7E ∧ b.val ≠ 0x22 ∧ b.val ≠ 0x5C) := by
      by_contra hall
      apply hne
      simp only [plainASCII, List.all_eq_true, decide_eq_true_eq]
      intro b hb
      by_contra hx
      exact hall ⟨b, hb, hx⟩
    obtain ⟨b, hb, hbn⟩ := hex
    have hlt : b.val < 0x80 := hascii b hb
    have hto := toNat_ofNat_byte b
    have hcn : ¬ (IsPrint tbl (Char.ofNat b.val) = true ∧ Char.ofNat b.val ≠ dquote ∧
        Char.ofNat b.val ≠ backslash) := by
      rintro ⟨hp, hq, hs⟩
      apply hbn
      have hq2 : b.val ≠ 0x22 := by
        intro hc
        apply hq
        rw [hc]; rfl
      have hs2 : b.val ≠ 0x5C := by
        intro hc
        apply hs
        rw [hc]; rfl
      unfold IsPrint at hp
      rw [hto] at hp
      have h1 : b.val ≤ 0xFF := by omega
      rw [if_pos h1] at hp
      by_cases h2 : 0x20 ≤ b.val ∧ b.val ≤ 0x7E
      · exact ⟨h2.1, h2.2, hq2, hs2⟩
      · rw [if_neg h2] at hp
        have h3 : ¬ (0xA1 ≤ b.val ∧ b.val ≤ 0xFF) := by omega
        rw [if_neg h3] at hp
        exact absurd hp (by simp)
    have hlen := foldl_appendEscapedRune_length_escaped tbl
      (r.map fun b => Char.ofNat b.val) (String.singleton dquote)
      ⟨Char.ofNat b.val, List.mem_map.mpr ⟨b, hb, rfl⟩, hcn⟩
    have h2 : (Quote tbl r).length = ("\"" ++ asciiText r ++ "\"").length := by rw [heq]
    unfold Quote at h2
    rw [quoteLoop_ascii tbl r _ hascii, String.length_push, String.length_append,
      String.length_append, asciiText_length] at h2
    rw [String.length_singleton, List.length_map] at hlen
    have e1 : ("\"" : GoString).length = 1 := rfl
    omega
  · intro h
    exact Quote_plain tbl r h

/-- C18 fails: a Raw holding a double quote is not written as it is between the quotes of
the Value line, the double quote is preceded by a backslash; a newline is written as a
backslash and the letter n; and at the largest level the dump panics and writes no Value
line at all. -/
theorem MatchExpression_dump_Raw_not_verbatim :
    (Expression.MatchExpression ⟨SelectorTypeBexpr, ["s"]⟩ MatchEqual
        (some (⟨bytesOf "a\"b", ()⟩ : MatchValue Unit))).ExpressionDump (fun _ => true)
        "" "  " 0 =
      .done "Equal \x7b\n  Selector: s\n  Value: \"a\\\"b\"\n\x7d\n" ∧
    (Expression.MatchExpression ⟨SelectorTypeBexpr, ["s"]⟩ MatchEqual
        (some (⟨bytesOf "a\"b", ()⟩ : MatchValue Unit))).ExpressionDump (fun _ => true)
        "" "  " 0 ≠
      .done ("Equal \x7b\n  Selector: s\n  Value: \"" ++ "a\"b" ++ "\"\n\x7d\n") ∧
    (Expression.MatchExpression ⟨SelectorTypeBexpr, ["s"]⟩ MatchEqual
        (some (⟨bytesOf "x\ny", ()⟩ : MatchValue Unit))).ExpressionDump (fun _ => true)
        "" "  " 0 =
      .done "Equal \x7b\n  Selector: s\n  Value: \"x\\ny\"\n\x7d\n" ∧
    (Expression.MatchExpression ⟨SelectorTypeBexpr, ["s"]⟩ MatchEqual
        (some (⟨bytesOf "ab", ()⟩ : MatchValue Unit))).ExpressionDump (fun _ => true)
        "" "" 9223372036854775807 = .fault "" := by
  decide

/-- C18, as the code has it: at a level `n` whose indentation of `n + 1` units can be
built, the Value line of a value-printing match expression is the indent, `Value: ` and
the Raw as `%q` quotes it, whatever bytes the Raw holds; a Raw of ASCII bytes stands as it
is between the two quotes (as the text that has its bytes) exactly when all its bytes are
printable and none is a double quote or a backslash; a double quote and a backslash are
preceded by a backslash, a newline is written as a backslash and the letter n, a byte that
begins no UTF-8 encoding as a backslash, `x` and its two hexadecimal digits, and a
printable letter outside ASCII is left as it is. -/
theorem MatchExpression_dump_Raw_quoted {α : Type} (tbl : Char → Bool) (sel : Selector)
    (op : MatchOperator) (v : MatchValue α) (w u : GoString) (n : Nat)
    (hop : op ∈ valueOperators) (hfit : indentFits u (n + 1) = true) :
    (Expression.MatchExpression sel op (some v)).ExpressionDump tbl w u n =
      .done (w ++ (copies u n ++ MatchOperator.String op ++ " \x7b\n" ++
        copies u (n + 1) ++ "Selector: " ++ sel.String ++ "\n" ++
        copies u (n + 1) ++ "Value: " ++ Quote tbl v.Raw ++ "\n" ++
        copies u n ++ "\x7d\n")) ∧
    ((∀ b ∈ v.Raw, b.val < 0x80) →
      bytesOf (asciiText v.Raw) = v.Raw ∧
      (Quote tbl v.Raw = "\"" ++ asciiText v.Raw ++ "\"" ↔ plainASCII v.Raw = true)) ∧
    Quote tbl (bytesOf "\"") = "\"\\\"\"" ∧
    Quote tbl (bytesOf "\\") = "\"\\\\\"" ∧
    Quote tbl (bytesOf "\n") = "\"\\n\"" ∧
    Quote tbl [0xFF] = "\"\\xff\"" ∧
    Quote tbl (bytesOf "é") = "\"é\"" := by
  have hp : printsValue op = true := by
    rw [printsValue_eq]; simpa using hop
  have hn1 : n + 1 ≤ 9223372036854775807 := ((indentFits_iff u (n + 1)).mp hfit).1
  refine ⟨?_, fun h => ⟨bytesOf_asciiText v.Raw h, Quote_ascii_verbatim_iff tbl v.Raw h⟩,
    rfl, rfl, rfl, rfl, rfl⟩
  simp [Expression.ExpressionDump, hp,
    Repeat_natCast u n (indentFits_mono u n (n + 1) hfit (by omega)), wrapInt_succ n hn1,
    Repeat_natCast_succ u n hfit]

/-- The theorem `MatchExpression_dump_Raw_quoted` at NotIn and a Raw with a backslash. -/
theorem MatchExpression_dump_Raw_quoted_witness :
    (MatchNotIn ∈ valueOperators ∧ indentFits "  " (0 + 1) = true) ∧
    (Expression.MatchExpression ⟨SelectorTypeBexpr, ["p"]⟩ MatchNotIn
        (some (⟨bytesOf "c:\\d", ()⟩ : MatchValue Unit))).ExpressionDump (fun _ => false)
        "" "  " ((0 : Nat) : Int) =
      .done ("" ++ (copies "  " 0 ++ MatchOperator.String MatchNotIn ++ " \x7b\n" ++
        copies "  " (0 + 1) ++ "Selector: " ++
        Selector.String ⟨SelectorTypeBexpr, ["p"]⟩ ++ "\n" ++
        copies "  " (0 + 1) ++ "Value: " ++
        Quote (fun _ => false)
          (MatchValue.Raw (⟨bytesOf "c:\\d", ()⟩ : MatchValue Unit)) ++ "\n" ++
        copies "  " 0 ++ "\x7d\n")) :=
  ⟨⟨by decide, by decide⟩,
    (MatchExpression_dump_Raw_quoted (fun _ => false) ⟨SelectorTypeBexpr, ["p"]⟩ MatchNotIn
      (⟨bytesOf "c:\\d", ()⟩ : MatchValue Unit) "" "  " 0 (by decide) (by decide)).1⟩

/-! ## Lines and levels -/

theorem prependEach_inside (p : List Char) (l : List Char) (r : List Char)
    (hl : ∀ c ∈ l, c ≠ newline) :
    prependEach p false (l ++ newline :: r) = l ++ newline :: prependEach p true r := by
  induction l with
  | nil => simp [prependEach]
  | cons c rest ih =>
    have hc : c ≠ newline := hl c (List.mem_cons_self _ _)
    have hrest : ∀ d ∈ rest, d ≠ newline := fun d hd => hl d (List.mem_cons_of_mem _ hd)
    simp [prependEach, hc, ih hrest]

theorem prependEach_line (p : List Char) (l : List Char) (r : List Char)
    (hl : ∀ c ∈ l, c ≠ newline) :
    prependEach p true (l ++ newline :: r) = p ++ (l ++ newline :: prependEach p true r) := by
  cases l with
  | nil => simp [prependEach]
  | cons c rest =>
    have hc : c ≠ newline := hl c (List.mem_cons_self _ _)
    have hrest : ∀ d ∈ rest, d ≠ newline := fun d hd => hl d (List.mem_cons_of_mem _ hd)
    simp [prependEach, hc, prependEach_inside p rest r hrest]

theorem noNewline_iff (s : GoString) : noNewline s = true ↔ ∀ c ∈ s.data, c ≠ newline := by
  simp [noNewline, List.all_eq_true]

theorem noNewline_append (a b : GoString) :
    noNewline (a ++ b) = (noNewline a && noNewline b) := by
  simp [noNewline, List.all_append]

theorem newline_data : ("\n" : GoString).data = [newline] := by decide

/-- Shifting a text that begins with a whole line shifts that line and then the rest. -/
theorem shiftLines_line (p l rest : GoString) (hl : noNewline l = true) :
    shiftLines p (l ++ "\n" ++ rest) = p ++ l ++ "\n" ++ shiftLines p rest := by
  apply String.ext
  simp only [shiftLines, String.data_append, newline_data, List.append_assoc,
    List.singleton_append]
  exact prependEach_line p.data l.data rest.data ((noNewline_iff l).mp hl)

theorem shiftLines_empty (p : GoString) : shiftLines p "" = "" := by
  apply String.ext
  simp [shiftLines, prependEach]

theorem copies_add (u : GoString) (a b : Nat) : copies u (a + b) = copies u a ++ copies u b := by
  induction b with
  | zero => simp [copies]
  | succ k ih => rw [← Nat.add_assoc, copies, copies, ih, String.append_assoc]

theorem noNewline_copies (u : GoString) (hu : noNewline u = true) (m : Nat) :
    noNewline (copies u m) = true := by
  induction m with
  | zero => rfl
  | succ k ih => rw [copies, noNewline_append, ih, hu]; rfl

theorem renderLines_append (u : GoString) (n : Nat) (A B : List (Nat × GoString)) :
    renderLines u n (A ++ B) = renderLines u n A ++ renderLines u n B := by
  induction A with
  | nil => simp [renderLines]
  | cons jc rest ih => simp [renderLines, ih, String.append_assoc]

theorem renderLines_deepen (u : GoString) (n k : Nat) (L : List (Nat × GoString)) :
    renderLines u n (deepen k L) = renderLines u (n + k) L := by
  induction L with
  | nil => simp [deepen, renderLines]
  | cons jc rest ih =>
    have ih2 : renderLines u n (List.map (fun jc => (jc.1 + k, jc.2)) rest) =
        renderLines u (n + k) rest := ih
    have e : n + (jc.1 + k) = n + k + jc.1 := by omega
    simp [deepen, renderLines, ih2, e]

/-- The lines rendered `k` levels deeper are the rendered lines with `k` indents put in
front of every line, when neither the indent nor a line holds a newline. -/
theorem shiftLines_renderLines (u : GoString) (hu : noNewline u = true) (n k : Nat)
    (L : List (Nat × GoString)) (hL : ∀ jc ∈ L, noNewline jc.2 = true) :
    shiftLines (copies u k) (renderLines u n L) = renderLines u (n + k) L := by
  induction L with
  | nil => simp [renderLines, shiftLines_empty]
  | cons jc rest ih =>
    have hjc : noNewline jc.2 = true := hL jc (List.mem_cons_self _ _)
    have hrest : ∀ x ∈ rest, noNewline x.2 = true :=
      fun x hx => hL x (List.mem_cons_of_mem _ hx)
    have hline : noNewline (copies u (n + jc.1) ++ jc.2) = true := by
      rw [noNewline_append, noNewline_copies u hu, hjc]; rfl
    have e : copies u (n + k + jc.1) = copies u k ++ copies u (n + jc.1) := by
      rw [← copies_add]; congr 1; omega
    simp only [renderLines]
    rw [shiftLines_line _ _ _ hline, ih hrest, e]
    simp [String.append_assoc]

theorem opening_line_split : (" \x7b\n" : GoString) = " \x7b" ++ "\n" := by decide


/-- The dump of a well-formed tree, at a level at which its indentations can be built, is
the text of its lines. -/
theorem dump_eq_renderLines {α : Type} (tbl : Char → Bool) (u : GoString)
    (e : Expression α) :
    ∀ n : Nat, wellFormed e = true → indentFits u (n + height e) = true →
      dump tbl e u n = some (renderLines u n (dumpLines tbl e)) := by
  induction e with
  | nil => intro n h _; simp [wellFormed] at h
  | UnaryExpression op X ih =>
    intro n h hfit
    rw [height_unary] at hfit
    have hX := ih (n + 1) (by simpa [wellFormed] using h) hfit
    unfold dump
    rw [ExpressionDump_unary tbl op X u n _ (by exact_mod_cast hX) ""]
    simp [dumpLines, renderLines, renderLines_append, renderLines_deepen,
      opening_line_split, closing_line_split, String.append_assoc]
  | BinaryExpression X op Y ihx ihy =>
    intro n h hfit
    simp only [wellFormed, Bool.and_eq_true] at h
    obtain ⟨fx, fy⟩ := indentFits_binary op X Y u n hfit
    have hX := ihx (n + 1) h.1 fx
    have hY := ihy (n + 1) h.2 fy
    unfold dump
    rw [ExpressionDump_binary tbl op X Y u n _ _ (by exact_mod_cast hX)
      (by exact_mod_cast hY) ""]
    simp [dumpLines, renderLines, renderLines_append, renderLines_deepen,
      opening_line_split, closing_line_split, String.append_assoc]
  | MatchExpression sel op value =>
    intro n h hfit
    unfold dump
    rw [ExpressionDump_match tbl sel op value u n h (indentFits_match sel op value u n hfit) ""]
    by_cases hp : printsValue op = true
    · simp [dumpLines, renderLines, hp, opening_line_split, closing_line_split,
        String.append_assoc]
    · simp [dumpLines, renderLines, hp, opening_line_split, closing_line_split,
        String.append_assoc]
  | CollectionExpression op sel nb E ih =>
    intro n h hfit
    rw [height_collection] at hfit
    have hE := ih (n + 2) (by simpa [wellFormed] using h) hfit
    unfold dump
    rw [ExpressionDump_collection tbl op sel nb E u n _ (by exact_mod_cast hE) ""]
    simp [dumpLines, renderLines, renderLines_append, renderLines_deepen,
      opening_line_split, closing_line_split, String.append_assoc]

theorem noNewline_UnaryOperator_String (op : UnaryOperator) :
    noNewline (UnaryOperator.String op) = true := by
  unfold UnaryOperator.String
  split_ifs <;> rfl

theorem noNewline_BinaryOperator_String (op : BinaryOperator) :
    noNewline (BinaryOperator.String op) = true := by
  unfold BinaryOperator.String
  split_ifs <;> rfl

theorem noNewline_MatchOperator_String (op : MatchOperator) :
    noNewline (MatchOperator.String op) = true := by
  unfold MatchOperator.String
  by_cases k0 : op = MatchEqual
  · rw [if_pos k0]; rfl
  · rw [if_neg k0]
    by_cases k1 : op = MatchNotEqual
    · rw [if_pos k1]; rfl
    · rw [if_neg k1]
      by_cases k2 : op = MatchIn
      · rw [if_pos k2]; rfl
      · rw [if_neg k2]
        by_cases k3 : op = MatchNotIn
        · rw [if_pos k3]; rfl
        · rw [if_neg k3]
          by_cases k4 : op = MatchIsEmpty
          · rw [if_pos k4]; rfl
          · rw [if_neg k4]
            by_cases k5 : op = MatchIsNotEmpty
            · rw [if_pos k5]; rfl
            · rw [if_neg k5]
              by_cases k6 : op = MatchMatches
              · rw [if_pos k6]; rfl
              · rw [if_neg k6]
                by_cases k7 : op = MatchNotMatches
                · rw [if_pos k7]; rfl
                · rw [if_neg k7]
                  by_cases k8 : op = MatchGreaterThan
                  · rw [if_pos k8]; rfl
                  · rw [if_neg k8]
                    by_cases k9 : op = MatchGreaterOrEqualThan
                    · rw [if_pos k9]; rfl
                    · rw [if_neg k9]
                      by_cases k10 : op = MatchLesserThan
                      · rw [if_pos k10]; rfl
                      · rw [if_neg k10]
                        by_cases k11 : op = MatchLesserOrEqualThan
                        · rw [if_pos k11]; rfl
                        · rw [if_neg k11]
                          rfl

theorem noNewline_CollectionOperator_String (op : CollectionOperator) :
    noNewline (CollectionOperator.String op) = true := by
  unfold CollectionOperator.String
  split_ifs <;> rfl

theorem noNewline_separated (sep : GoString) (hsep : noNewline sep = true)
    (path : List GoString) (hpath : path.all noNewline = true) :
    noNewline (separated sep path) = true := by
  induction path with
  | nil => rfl
  | cons a rest ih =>
    simp only [List.all_cons, Bool.and_eq_true] at hpath
    cases rest with
    | nil => simpa [separated] using hpath.1
    | cons b rest =>
      simp only [separated, noNewline_append, hpath.1, hsep, ih hpath.2, Bool.and_self]

theorem noNewline_Selector_String (sel : Selector) (hpath : sel.Path.all noNewline = true) :
    noNewline sel.String = true := by
  unfold Selector.String
  split_ifs
  · rfl
  · rw [Join_eq_separated]; exact noNewline_separated "." rfl sel.Path hpath
  · rw [Join_eq_separated]; exact noNewline_separated "/" rfl sel.Path hpath
  · rfl

theorem noNewline_CollectionNameBinding_String (b : CollectionNameBinding)
    (hd : noNewline b.Default = true) (hi : noNewline b.Index = true)
    (hv : noNewline b.Value = true) :
    noNewline b.String = true := by
  unfold CollectionNameBinding.String
  split_ifs <;> first | rfl | (simp only [noNewline_append, hd, hi, hv]; rfl)


theorem noNewline_asciiText (r : GoBytes) (hr : plainASCII r = true) :
    noNewline (asciiText r) = true := by
  induction r with
  | nil => rfl
  | cons b rest ih =>
    obtain ⟨⟨h1, _, _, _⟩, hrest⟩ := (plainASCII_cons b rest).mp hr
    have hne : Char.ofNat b.val ≠ newline := by
      intro hc
      have := congrArg Char.toNat hc
      rw [toNat_ofNat_byte] at this
      have hnl : newline.toNat = 10 := rfl
      omega
    have ih2 := (noNewline_iff _).mp (ih hrest)
    rw [noNewline_iff]
    intro c hc
    simp only [asciiText, List.map_cons, List.mem_cons] at hc
    rcases hc with hc | hc
    · rw [hc]; exact hne
    · exact ih2 c hc

theorem noNewline_Quote (tbl : Char → Bool) (r : GoBytes) (hr : plainASCII r = true) :
    noNewline (Quote tbl r) = true := by
  rw [Quote_plain tbl r hr, noNewline_append, noNewline_append, noNewline_asciiText r hr]
  rfl

/-- The lines of a tree with clean selectors, names and Raw values hold no newline. -/
theorem noNewline_dumpLines {α : Type} (tbl : Char → Bool) (e : Expression α)
    (h : lineSafe e = true) :
    ∀ jc ∈ dumpLines tbl e, noNewline jc.2 = true := by
  induction e with
  | nil => intro jc hjc; simp [dumpLines] at hjc
  | UnaryExpression op X ih =>
    intro jc hjc
    simp only [dumpLines, deepen, List.mem_cons, List.mem_append, List.mem_map,
      List.mem_singleton, List.not_mem_nil, or_false] at hjc
    rcases hjc with (h1 | ⟨x, hx, hxe⟩) | h3
    · subst h1; simp only [noNewline_append, noNewline_UnaryOperator_String]; rfl
    · subst hxe; exact ih (by simpa [lineSafe] using h) x hx
    · subst h3; rfl
  | BinaryExpression X op Y ihx ihy =>
    intro jc hjc
    simp only [lineSafe, Bool.and_eq_true] at h
    simp only [dumpLines, deepen, List.mem_cons, List.mem_append, List.mem_map,
      List.mem_singleton, List.not_mem_nil, or_false] at hjc
    rcases hjc with ((h1 | ⟨x, hx, hxe⟩) | ⟨x, hx, hxe⟩) | h3
    · subst h1; simp only [noNewline_append, noNewline_BinaryOperator_String]; rfl
    · subst hxe; exact ihx h.1 x hx
    · subst hxe; exact ihy h.2 x hx
    · subst h3; rfl
  | MatchExpression sel op value =>
    intro jc hjc
    simp only [lineSafe, Bool.and_eq_true] at h
    have hraw : plainASCII ((value.map MatchValue.Raw).getD []) = true := by
      cases value with
      | none => rfl
      | some v => simpa using h.2
    simp only [dumpLines, List.mem_cons, List.mem_append, List.mem_singleton,
      List.not_mem_nil, or_false] at hjc
    rcases hjc with (h1 | h2 | h3) | h4
    · subst h1; simp only [noNewline_append, noNewline_MatchOperator_String]; rfl
    · subst h2
      simp only [noNewline_append, noNewline_Selector_String sel h.1]; rfl
    · by_cases hp : printsValue op = true
      · simp only [hp, if_true, List.mem_singleton] at h3
        subst h3
        simp only [noNewline_append, noNewline_Quote tbl _ hraw]; rfl
      · simp [hp] at h3
    · subst h4; rfl
  | CollectionExpression op sel nb E ih =>
    intro jc hjc
    simp only [lineSafe, Bool.and_eq_true] at h
    obtain ⟨⟨⟨⟨hsel, hd⟩, hi⟩, hv⟩, hE⟩ := h
    simp only [dumpLines, deepen, List.mem_cons, List.mem_append, List.mem_map,
      List.mem_singleton, List.not_mem_nil, or_false] at hjc
    rcases hjc with (h1 | h2 | h3 | ⟨x, hx, hxe⟩) | h5
    · subst h1; simp only [noNewline_append, noNewline_CollectionOperator_String]; rfl
    · subst h2
      simp only [noNewline_append, noNewline_Selector_String sel hsel]; rfl
    · subst h3
      simp only [noNewline_append, noNewline_CollectionNameBinding_String nb hd hi hv]; rfl
    · subst hxe; exact ih hE x hx
    · subst h5; rfl


/-- With the empty indent the dump is the same at all levels from which the deepest level
of the tree is within the range of `int`. -/
theorem ExpressionDump_empty_indent {α : Type} (tbl : Char → Bool) (e : Expression α) :
    ∀ (w : GoString) (m1 m2 : Nat), indentFits "" (m1 + height e) = true →
      indentFits "" (m2 + height e) = true →
      e.ExpressionDump tbl w "" m1 = e.ExpressionDump tbl w "" m2 := by
  induction e with
  | nil => intro w m1 m2 _ _; rfl
  | UnaryExpression op X ih =>
    intro w m1 m2 h1 h2
    rw [height_unary] at h1 h2
    have b1 : m1 + 1 ≤ 9223372036854775807 := by
      have := ((indentFits_iff _ _).mp h1).1; omega
    have b2 : m2 + 1 ≤ 9223372036854775807 := by
      have := ((indentFits_iff _ _).mp h2).1; omega
    have hX : ∀ w2, X.ExpressionDump tbl w2 "" ((m1 : Int) + 1) =
        X.ExpressionDump tbl w2 "" ((m2 : Int) + 1) := by
      intro w2
      have := ih w2 (m1 + 1) (m2 + 1) h1 h2
      exact_mod_cast this
    simp only [Expression.ExpressionDump,
      Repeat_natCast "" m1 (indentFits_mono "" m1 _ h1 (by omega)),
      Repeat_natCast "" m2 (indentFits_mono "" m2 _ h2 (by omega)),
      wrapInt_succ m1 b1, wrapInt_succ m2 b2, copies_empty, hX]
  | BinaryExpression X op Y ihx ihy =>
    intro w m1 m2 h1 h2
    obtain ⟨x1, y1⟩ := indentFits_binary op X Y "" m1 h1
    obtain ⟨x2, y2⟩ := indentFits_binary op X Y "" m2 h2
    have b1 : m1 + 1 ≤ 9223372036854775807 := by
      have := ((indentFits_iff _ _).mp x1).1; omega
    have b2 : m2 + 1 ≤ 9223372036854775807 := by
      have := ((indentFits_iff _ _).mp x2).1; omega
    have hX : ∀ w2, X.ExpressionDump tbl w2 "" ((m1 : Int) + 1) =
        X.ExpressionDump tbl w2 "" ((m2 : Int) + 1) := by
      intro w2
      have := ihx w2 (m1 + 1) (m2 + 1) x1 x2
      exact_mod_cast this
    have hY : ∀ w2, Y.ExpressionDump tbl w2 "" ((m1 : Int) + 1) =
        Y.ExpressionDump tbl w2 "" ((m2 : Int) + 1) := by
      intro w2
      have := ihy w2 (m1 + 1) (m2 + 1) y1 y2
      exact_mod_cast this
    simp only [Expression.ExpressionDump,
      Repeat_natCast "" m1 (indentFits_mono "" m1 _ x1 (by omega)),
      Repeat_natCast "" m2 (indentFits_mono "" m2 _ x2 (by omega)),
      wrapInt_succ m1 b1, wrapInt_succ m2 b2, copies_empty, hX, hY]
  | MatchExpression sel op value =>
    intro w m1 m2 h1 h2
    have f1 := indentFits_match sel op value "" m1 h1
    have f2 := indentFits_match sel op value "" m2 h2
    have b1 : m1 + 1 ≤ 9223372036854775807 := ((indentFits_iff _ _).mp f1).1
    have b2 : m2 + 1 ≤ 9223372036854775807 := ((indentFits_iff _ _).mp f2).1
    simp only [Expression.ExpressionDump,
      Repeat_natCast "" m1 (indentFits_mono "" m1 _ f1 (by omega)),
      Repeat_natCast "" m2 (indentFits_mono "" m2 _ f2 (by omega)),
      wrapInt_succ m1 b1, wrapInt_succ m2 b2,
      Repeat_natCast_succ "" m1 f1, Repeat_natCast_succ "" m2 f2, copies_empty]
  | CollectionExpression op sel nb E ih =>
    intro w m1 m2 h1 h2
    rw [height_collection] at h1 h2
    have b1 : m1 + 2 ≤ 9223372036854775807 := by
      have := ((indentFits_iff _ _).mp h1).1; omega
    have b2 : m2 + 2 ≤ 9223372036854775807 := by
      have := ((indentFits_iff _ _).mp h2).1; omega
    have hE : ∀ w2, E.ExpressionDump tbl w2 "" ((m1 : Int) + 2) =
        E.ExpressionDump tbl w2 "" ((m2 : Int) + 2) := by
      intro w2
      have := ih w2 (m1 + 2) (m2 + 2) h1 h2
      exact_mod_cast this
    simp only [Expression.ExpressionDump,
      Repeat_natCast "" m1 (indentFits_mono "" m1 _ h1 (by omega)),
      Repeat_natCast "" m2 (indentFits_mono "" m2 _ h2 (by omega)),
      wrapInt_add_two m1 b1, wrapInt_add_two m2 b2, copies_empty, hE]

/-- C19 fails for an indent that holds a newline: the dump one level deeper is not the
dump with the indent put in front of every line. It also fails at the largest level: with
the empty indent the dump at level `MaxInt64 - 1` is written and the dump one level deeper
panics, so that the output depends on the level. -/
theorem dump_level_shift_fails_newline_indent :
    wellFormed (Expression.MatchExpression ⟨SelectorTypeBexpr, ["a"]⟩ MatchIsEmpty
      (none : Option (MatchValue Unit))) = true ∧
    lineSafe (Expression.MatchExpression ⟨SelectorTypeBexpr, ["a"]⟩ MatchIsEmpty
      (none : Option (MatchValue Unit))) = true ∧
    dump (fun _ => true) (Expression.MatchExpression ⟨SelectorTypeBexpr, ["a"]⟩ MatchIsEmpty
      (none : Option (MatchValue Unit))) "\n" 0 =
      some "Is Empty \x7b\n\nSelector: a\n\x7d\n" ∧
    dump (fun _ => true) (Expression.MatchExpression ⟨SelectorTypeBexpr, ["a"]⟩ MatchIsEmpty
      (none : Option (MatchValue Unit))) "\n" (0 + 1) =
      some "\nIs Empty \x7b\n\n\nSelector: a\n\n\x7d\n" ∧
    shiftLines (copies "\n" 1) "Is Empty \x7b\n\nSelector: a\n\x7d\n" =
      "\nIs Empty \x7b\n\n\n\nSelector: a\n\n\x7d\n" ∧
    ("\nIs Empty \x7b\n\n\nSelector: a\n\n\x7d\n" : GoString) ≠
      shiftLines (copies "\n" 1) "Is Empty \x7b\n\nSelector: a\n\x7d\n" ∧
    dump (fun _ => true) (Expression.MatchExpression ⟨SelectorTypeBexpr, ["a"]⟩ MatchIsEmpty
      (none : Option (MatchValue Unit))) "" 9223372036854775806 =
      some "Is Empty \x7b\nSelector: a\n\x7d\n" ∧
    dump (fun _ => true) (Expression.MatchExpression ⟨SelectorTypeBexpr, ["a"]⟩ MatchIsEmpty
      (none : Option (MatchValue Unit))) "" (9223372036854775806 + 1) = none := by
  decide

/-- C19, as the code has it: for a well-formed tree whose selector path segments and
name-binding names hold no newline and whose Raw values are printable ASCII without double
quote and backslash, an indent `u` that holds no newline, and levels `n` and `k` whose
deepest indentation can be built (`n + k + h` and `len(u) * (n + k + h)` at most the
largest `int`, `h` the height of the tree), the dump at level `n + k` is the dump at level
`n` with `k` copies of `u` put in front of every line; with the empty indent the dump of
every tree is the same at all levels from which its deepest level is at most the largest
`int`. -/
theorem dump_level_shift {α : Type} (tbl : Char → Bool) (e : Expression α) (u : GoString)
    (n k : Nat) (hwf : wellFormed e = true) (hsafe : lineSafe e = true)
    (hu : noNewline u = true) (hfit : indentFits u (n + k + height e) = true) :
    (∃ t : GoString, dump tbl e u n = some t ∧
      dump tbl e u ((n : Int) + (k : Int)) = some (shiftLines (copies u k) t)) ∧
    (∀ (e2 : Expression α) (w : GoString) (m1 m2 : Nat),
      m1 + height e2 ≤ 9223372036854775807 → m2 + height e2 ≤ 9223372036854775807 →
      e2.ExpressionDump tbl w "" m1 = e2.ExpressionDump tbl w "" m2) := by
  constructor
  · have hfn : indentFits u (n + height e) = true :=
      indentFits_mono u _ _ hfit (by omega)
    refine ⟨renderLines u n (dumpLines tbl e), dump_eq_renderLines tbl u e n hwf hfn, ?_⟩
    have h := dump_eq_renderLines tbl u e (n + k) hwf hfit
    rw [shiftLines_renderLines u hu n k _ (noNewline_dumpLines tbl e hsafe)]
    exact_mod_cast h
  · intro e2 w m1 m2 h1 h2
    exact ExpressionDump_empty_indent tbl e2 w m1 m2 (indentFits_empty _ h1)
      (indentFits_empty _ h2)

/-- The theorem `dump_level_shift` at a collection over a conjunction, from level 0 to
level 2. -/
theorem dump_level_shift_witness :
    (wellFormed (Expression.CollectionExpression CollectionOpAny
        ⟨SelectorTypeBexpr, ["xs"]⟩ ⟨CollectionBindValue, "", "", "v"⟩
        (Expression.BinaryExpression
          (Expression.MatchExpression ⟨SelectorTypeBexpr, ["v"]⟩ MatchEqual
            (some (⟨bytesOf "1", ()⟩ : MatchValue Unit)))
          BinaryOpOr
          (Expression.MatchExpression ⟨SelectorTypeBexpr, ["v"]⟩ MatchIsEmpty none))) = true ∧
      lineSafe (Expression.CollectionExpression CollectionOpAny
        ⟨SelectorTypeBexpr, ["xs"]⟩ ⟨CollectionBindValue, "", "", "v"⟩
        (Expression.BinaryExpression
          (Expression.MatchExpression ⟨SelectorTypeBexpr, ["v"]⟩ MatchEqual
            (some (⟨bytesOf "1", ()⟩ : MatchValue Unit)))
          BinaryOpOr
          (Expression.MatchExpression ⟨SelectorTypeBexpr, ["v"]⟩ MatchIsEmpty none))) = true ∧
      noNewline "  " = true ∧
      indentFits "  " (0 + 2 + height (Expression.CollectionExpression CollectionOpAny
        ⟨SelectorTypeBexpr, ["xs"]⟩ ⟨CollectionBindValue, "", "", "v"⟩
        (Expression.BinaryExpression
          (Expression.MatchExpression ⟨SelectorTypeBexpr, ["v"]⟩ MatchEqual
            (some (⟨bytesOf "1", ()⟩ : MatchValue Unit)))
          BinaryOpOr
          (Expression.MatchExpression ⟨SelectorTypeBexpr, ["v"]⟩ MatchIsEmpty none)))) =
        true) ∧
    ∃ t : GoString,
      dump (fun _ => true) (Expression.CollectionExpression CollectionOpAny
        ⟨SelectorTypeBexpr, ["xs"]⟩ ⟨CollectionBindValue, "", "", "v"⟩
        (Expression.BinaryExpression
          (Expression.MatchExpression ⟨SelectorTypeBexpr, ["v"]⟩ MatchEqual
            (some (⟨bytesOf "1", ()⟩ : MatchValue Unit)))
          BinaryOpOr
          (Expression.MatchExpression ⟨SelectorTypeBexpr, ["v"]⟩ MatchIsEmpty none)))
        "  " ((0 : Nat) : Int) = some t ∧
      dump (fun _ => true) (Expression.CollectionExpression CollectionOpAny
        ⟨SelectorTypeBexpr, ["xs"]⟩ ⟨CollectionBindValue, "", "", "v"⟩
        (Expression.BinaryExpression
          (Expression.MatchExpression ⟨SelectorTypeBexpr, ["v"]⟩ MatchEqual
            (some (⟨bytesOf "1", ()⟩ : MatchValue Unit)))
          BinaryOpOr
          (Expression.MatchExpression ⟨SelectorTypeBexpr, ["v"]⟩ MatchIsEmpty none)))
        "  " (((0 : Nat) : Int) + ((2 : Nat) : Int)) = some (shiftLines (copies "  " 2) t) :=
  ⟨⟨by decide, by decide, by decide, by decide⟩,
    (dump_level_shift (fun _ => true) _ "  " 0 2 (by decide) (by decide) (by decide)
      (by decide)).1⟩

end Grammar
